import Mathlib

/-!
Verification development for the strongswan plugin feature loader
(src/libstrongswan/plugins/plugin_loader.c).

The loader state and its operations are translated from the C source into
executable Lean definitions.  Machine pointers are replaced by stable
numeric identifiers: a provided feature is identified by its index into a
pool that only grows (the pool models the heap of provided_feature_t
objects; destruction is modelled by removing the identifier from the
plugin-entry, registry and activation-stack lists that reference it).
The mutually recursive resolver (load_provided / load_feature /
load_dependencies / load_registered) is modelled by a single function
`exec` that is structurally recursive on a fuel counter; exhausting the
fuel leaves the state unchanged, which never marks a feature loaded
without its dependency check, so fuel only has to be large enough on the
concrete scenarios evaluated below.
-/

namespace PluginLoader

/-- The kind tag of a plugin feature descriptor (plugin_feature.h). -/
inductive FeatureKind where
  | PROVIDE
  | DEPENDS
  | SDEPEND
  | REGISTER
  | CALLBACK
deriving DecidableEq, Repr, Inhabited

/-- Modelled from the spec: a feature descriptor.  The payload schema of
plugin_feature.c is not part of the sources; following section 3 of the
spec it is an opaque capability identifier `cap` plus an optional
discriminating parameter `disc`, where `none` is the wildcard / "any"
discriminator. -/
structure Feature where
  kind : FeatureKind
  cap : Nat
  disc : Option Nat
deriving DecidableEq, Repr, Inhabited

/-- Modelled from the spec: plugin_feature_equals - both payloads are
identical (plugin_feature.c is not among the sources). -/
def featureEquals (a b : Feature) : Bool :=
  a.cap == b.cap && a.disc == b.disc

/-- Modelled from the spec: plugin_feature_matches - fuzzy matching where a
wildcard (`none`) discriminator on either side accepts any specific value
on the other (plugin_feature.c is not among the sources). -/
def featureMatches (a b : Feature) : Bool :=
  a.cap == b.cap && (a.disc == b.disc || a.disc == none || b.disc == none)

theorem featureEquals_true_iff {a b : Feature} :
    featureEquals a b = true ↔ a.cap = b.cap ∧ a.disc = b.disc := by
  simp [featureEquals]

theorem featureMatches_true_iff {a b : Feature} :
    featureMatches a b = true ↔
      a.cap = b.cap ∧ (a.disc = b.disc ∨ a.disc = none ∨ b.disc = none) := by
  simp [featureMatches, or_assoc]

theorem featureEquals_symm {a b : Feature} (h : featureEquals a b = true) :
    featureEquals b a = true := by
  rw [featureEquals_true_iff] at h ⊢; exact ⟨h.1.symm, h.2.symm⟩

theorem featureEquals_trans {a b c : Feature} (h1 : featureEquals a b = true)
    (h2 : featureEquals b c = true) : featureEquals a c = true := by
  rw [featureEquals_true_iff] at h1 h2 ⊢
  exact ⟨h1.1.trans h2.1, h1.2.trans h2.2⟩

theorem featureMatches_symm {a b : Feature} (h : featureMatches a b = true) :
    featureMatches b a = true := by
  rw [featureMatches_true_iff] at h ⊢
  exact ⟨h.1.symm, by tauto⟩

/-- `equals` implies `matches`. -/
theorem featureEquals_implies_matches {a b : Feature}
    (h : featureEquals a b = true) : featureMatches a b = true := by
  rw [featureEquals_true_iff] at h
  rw [featureMatches_true_iff]
  exact ⟨h.1, Or.inl h.2⟩

/-- Substituting an `equals` feature on the left of `matches`. -/
theorem featureMatches_congr {a b c : Feature}
    (he : featureEquals a b = true) (hm : featureMatches b c = true) :
    featureMatches a c = true := by
  rw [featureEquals_true_iff] at he
  rw [featureMatches_true_iff] at hm ⊢
  refine ⟨he.1.trans hm.1, ?_⟩
  rcases hm.2 with h | h | h
  · exact Or.inl (he.2.trans h)
  · exact Or.inr (Or.inl (he.2.trans h))
  · exact Or.inr (Or.inr h)

/-- provided_feature_t: one PROVIDE instance bound to a plugin entry.
`entry` is the identifier (eid) of the owning plugin entry, `reg` the
active FEATURE_REGISTER / FEATURE_CALLBACK context, and `feats` the slice
of the feature block from the PROVIDE descriptor to the end of the block
(so `feats.length` is the `dependencies` count of the C struct and
`feats.headD default` the PROVIDE descriptor itself). -/
structure ProvidedFeature where
  entry : Nat
  reg : Option Feature
  feats : List Feature
  loading : Bool
  loaded : Bool
  failed : Bool
deriving DecidableEq, Repr, Inhabited

/-- plugin_entry_t.  `eid` is a stable identifier standing for the entry
pointer; `hasFeaturesIntf` models whether plugin->get_features is non-null;
`loadOk` models the outcome of the external feature load callback invoked
by plugin_feature_load for a given PROVIDE descriptor; `features` lists the
identifiers of the provided features contributed by this entry. -/
structure PluginEntry where
  eid : Nat
  name : String
  critical : Bool
  hasFeaturesIntf : Bool
  loadOk : Feature → Bool
  features : List Nat

/-- registered_feature_t: a registry row.  `key` is the value of the
descriptor the row is keyed by and `keyOwner` the identifier of the
provided feature whose descriptor pointer serves as that key (pointer
identity in the C source); `providers` lists provided-feature ids. -/
structure RegisteredFeature where
  key : Feature
  keyOwner : Nat
  providers : List Nat
deriving DecidableEq, Repr, Inhabited

/-- The three statistics counters collected while loading features. -/
structure Stats where
  failed : Nat
  depends : Nat
  critical : Nat
deriving DecidableEq, Repr, Inhabited

/-- private_plugin_loader_t.  `pool` is the heap of provided_feature_t
objects (indexed by identifier, never shrinking), `plugins` the ordered
module-entry list, `registry` the feature hash table, `loadedStack` the
front-insertion list of loaded features, and `loadedPlugins` the cached
loaded-plugins string (`none` models NULL). -/
structure LoaderState where
  pool : List ProvidedFeature
  plugins : List PluginEntry
  registry : List RegisteredFeature
  loadedStack : List Nat
  stats : Stats
  loadedPlugins : Option String
  nextEid : Nat

/-- The state of a freshly created loader (plugin_loader_create). -/
def initState : LoaderState :=
  { pool := [], plugins := [], registry := [], loadedStack := [],
    stats := ⟨0, 0, 0⟩, loadedPlugins := none, nextEid := 0 }

/-- Dereference a provided-feature identifier. -/
def poolGet (s : LoaderState) (pid : Nat) : ProvidedFeature :=
  s.pool.getD pid default

/-- The PROVIDE descriptor of a provided feature (provided->feature). -/
def descrOf (s : LoaderState) (pid : Nat) : Feature :=
  (poolGet s pid).feats.headD default

/-- Update one provided feature in the pool. -/
def modifyProvided (s : LoaderState) (pid : Nat)
    (f : ProvidedFeature → ProvidedFeature) : LoaderState :=
  { s with pool := s.pool.set pid (f (poolGet s pid)) }

def setLoading (s : LoaderState) (pid : Nat) (b : Bool) : LoaderState :=
  modifyProvided s pid (fun p => { p with loading := b })

def setLoaded (s : LoaderState) (pid : Nat) : LoaderState :=
  modifyProvided s pid (fun p => { p with loaded := true })

def setFailed (s : LoaderState) (pid : Nat) : LoaderState :=
  modifyProvided s pid (fun p => { p with failed := true })

/-- The plugin entry owning a provided feature (provided->entry). -/
def entryOf (s : LoaderState) (pid : Nat) : Option PluginEntry :=
  s.plugins.find? (fun e => e.eid == (poolGet s pid).entry)

/-- provided->entry->critical. -/
def criticalOf (s : LoaderState) (pid : Nat) : Bool :=
  match entryOf s pid with
  | some e => e.critical
  | none => false

/-- plugin_feature_load: invoke the load callback of the owning module for
this provided feature. -/
def loadOkOf (s : LoaderState) (pid : Nat) : Bool :=
  match entryOf s pid with
  | some e => e.loadOk ((poolGet s pid).feats.headD default)
  | none => false

/-- The statistics accounting shared by the two failure paths at the end
of load_feature: mark the feature failed, optionally count an unmet
dependency, and bump the failed / critical counters. -/
def failAccounting (s : LoaderState) (pid : Nat) (unmetDep : Bool) :
    LoaderState :=
  let c := criticalOf s pid
  let s1 := setFailed s pid
  { s1 with stats :=
      { failed := s1.stats.failed + 1,
        depends := s1.stats.depends + (if unmetDep then 1 else 0),
        critical := s1.stats.critical + (if c then 1 else 0) } }

/-- is_feature_loaded. -/
def isFeatureLoaded (p : ProvidedFeature) : Bool := p.loaded

/-- is_feature_loadable. -/
def isFeatureLoadable (p : ProvidedFeature) : Bool :=
  !p.loading && !p.loaded && !p.failed

/-- find_compatible_feature: get_match with loaded_feature_matches - some
registry row whose key matches the dependency and that has a loaded
provider. -/
def findCompatible (s : LoaderState) (dep : Feature) : Bool :=
  s.registry.any (fun r =>
    featureMatches dep r.key &&
      r.providers.any (fun q => (poolGet s q).loaded))

/-- The registry lookup pair of load_dependencies: first get_match with
loadable_feature_equals, then get_match with loadable_feature_matches. -/
def regFindLoadable (s : LoaderState) (dep : Feature) :
    Option RegisteredFeature :=
  match s.registry.find? (fun r =>
      featureEquals dep r.key &&
        r.providers.any (fun q => isFeatureLoadable (poolGet s q))) with
  | some r => some r
  | none =>
      s.registry.find? (fun r =>
        featureMatches dep r.key &&
          r.providers.any (fun q => isFeatureLoadable (poolGet s q)))

/-- The dependency suffix walked by load_dependencies: the descriptors
after the PROVIDE while their kind is DEPENDS or SDEPEND. -/
def depSuffixOf (ds : List Feature) : List Feature :=
  ds.takeWhile (fun d => d.kind == FeatureKind.DEPENDS ||
    d.kind == FeatureKind.SDEPEND)

/-- The hard dependencies among a dependency suffix. -/
def hardDepsOf (ds : List Feature) : List Feature :=
  (depSuffixOf ds).filter (fun d => d.kind == FeatureKind.DEPENDS)

/-- One pending call of the mutually recursive resolver. -/
inductive Task where
  | provided (pid level : Nat)
  | feature (pid level : Nat)
  | deps (ds : List Feature) (level : Nat)
  | dloop (k : Nat) (d : Feature) (level : Nat)
  | registered (pids : List Nat) (level : Nat)

/-- The dependency resolver: a single function covering load_provided,
load_feature, load_dependencies (`deps`, whose Bool result is the return
value of load_dependencies), the do/while registry-draining loop inside it
(`dloop`, given pool-size + 1 rounds, enough for its natural exit), and
load_registered.  Structural recursion on fuel; at fuel 0 the state is
returned unchanged with result `false`. -/
def exec : Nat → Task → LoaderState → LoaderState × Bool
  | 0, _, s => (s, false)
  | fuel + 1, t, s =>
    match t with
    | Task.provided pid level =>
        let p := poolGet s pid
        if p.loaded || p.failed then (s, true)
        else if p.loading then (s, true)
        else
          let s1 := setLoading s pid true
          let s2 := (exec fuel (Task.feature pid (level + 1)) s1).1
          (setLoading s2 pid false, true)
    | Task.feature pid level =>
        let r := exec fuel (Task.deps (poolGet s pid).feats.tail level) s
        if r.2 then
          if loadOkOf r.1 pid then
            let s2 := setLoaded r.1 pid
            ({ s2 with loadedStack := pid :: s2.loadedStack }, true)
          else (failAccounting r.1 pid false, true)
        else (failAccounting r.1 pid true, true)
    | Task.deps ds level =>
        match ds with
        | [] => (s, true)
        | d :: rest =>
            if d.kind == FeatureKind.DEPENDS ||
                d.kind == FeatureKind.SDEPEND then
              let s1 := (exec fuel
                (Task.dloop (s.pool.length + 1) d level) s).1
              if findCompatible s1 d then
                exec fuel (Task.deps rest level) s1
              else if d.kind == FeatureKind.SDEPEND then
                exec fuel (Task.deps rest level) s1
              else (s1, false)
            else (s, true)
    | Task.dloop k d level =>
        match k with
        | 0 => (s, true)
        | k + 1 =>
            match regFindLoadable s d with
            | some r =>
                let s1 := (exec fuel
                  (Task.registered r.providers level) s).1
                exec fuel (Task.dloop k d level) s1
            | none => (s, true)
    | Task.registered pids level =>
        match pids with
        | [] => (s, true)
        | pid :: rest =>
            let s1 := (exec fuel (Task.provided pid level) s).1
            exec fuel (Task.registered rest level) s1

/-- load_provided. -/
def loadProvided (fuel : Nat) (s : LoaderState) (pid level : Nat) :
    LoaderState :=
  (exec fuel (Task.provided pid level) s).1

/-- load_dependencies on the given dependency slice, returning its Bool
result and the updated state. -/
def loadDependencies (fuel : Nat) (s : LoaderState) (ds : List Feature)
    (level : Nat) : LoaderState × Bool :=
  let r := exec fuel (Task.deps ds level) s
  (r.1, r.2)

/-- load_features: walk the plugin entries in list order and their
provided features in emission order, loading each at level 0. -/
def loadFeatures (fuel : Nat) (s : LoaderState) : LoaderState :=
  ((s.plugins.map (fun e => e.features)).flatten).foldl
    (fun a pid => loadProvided fuel a pid 0) s

/-- Append a provider to the first registry row whose key `equals` the
given feature (hashtable put on an existing registered feature). -/
def regAppend (rows : List RegisteredFeature) (f : Feature) (pid : Nat) :
    List RegisteredFeature :=
  match rows with
  | [] => []
  | r :: rest =>
      if featureEquals r.key f then
        { r with providers := r.providers ++ [pid] } :: rest
      else r :: regAppend rest f pid

/-- Add a provided-feature id to the feature list of the entry with the
given eid. -/
def entryAddFeature (s : LoaderState) (eid pid : Nat) : LoaderState :=
  { s with plugins := s.plugins.map (fun e =>
      if e.eid == eid then { e with features := e.features ++ [pid] }
      else e) }

/-- One PROVIDE descriptor of register_features: create the provided
feature (whose `feats` slice is the rest of the block from the PROVIDE
on), register it under the existing `equals` row or a fresh one, and
append it to the entry. -/
def provideStep (s : LoaderState) (eid : Nat) (reg : Option Feature)
    (f : Feature) (rest : List Feature) : LoaderState :=
  let pid := s.pool.length
  let p : ProvidedFeature :=
    { entry := eid, reg := reg, feats := f :: rest,
      loading := false, loaded := false, failed := false }
  let newReg :=
    if s.registry.any (fun r => featureEquals r.key f) then
      regAppend s.registry f pid
    else
      s.registry ++ [{ key := f, keyOwner := pid, providers := [pid] }]
  entryAddFeature { s with
    pool := s.pool ++ [p],
    registry := newReg } eid pid

/-- The body of register_features: walk the feature block keeping the
current REGISTER/CALLBACK context and handling each PROVIDE with
provideStep. -/
def registerGo (eid : Nat) : Option Feature → List Feature → LoaderState →
    LoaderState
  | _, [], s => s
  | reg, f :: rest, s =>
      match f.kind with
      | FeatureKind.PROVIDE =>
          registerGo eid reg rest (provideStep s eid reg f rest)
      | FeatureKind.REGISTER => registerGo eid (some f) rest s
      | FeatureKind.CALLBACK => registerGo eid (some f) rest s
      | _ => registerGo eid reg rest s

/-- register_features: entries whose module lacks the features interface
contribute nothing. -/
def registerFeatures (s : LoaderState) (eid : Nat) (hasIntf : Bool)
    (block : List Feature) : LoaderState :=
  if hasIntf then registerGo eid none block s else s

/-- What the environment answers for one plugin name: the module object
obtained from a successful construction.  `none` models every construction
failure (missing constructor with no file, integrity failure, dlopen
failure, NULL from the constructor or path overflow). -/
structure PluginDef where
  hasFeaturesIntf : Bool
  block : List Feature
  loadOk : Feature → Bool

/-- The external world load_plugins runs against. -/
def Env : Type := String → Option PluginDef

/-- Strip the `!` critical marker from a plugin-list token
(token[len-1] in load_plugins). -/
def parseToken (tok : String) : String × Bool :=
  if tok.toList.getLast? == some (Char.ofNat 33) then
    (tok.dropRight 1, true)
  else (tok, false)

/-- plugin_loaded: is a module of that name already present. -/
def pluginLoaded (s : LoaderState) (name : String) : Bool :=
  s.plugins.any (fun e => e.name == name)

/-- The token loop of load_plugins: construct and register each named
plugin, skipping names already present, and abort the remaining tokens
when a critical plugin fails to construct.  Returns the state and the
critical_failed flag of that phase. -/
def constructPhase (env : Env) : List String → LoaderState →
    LoaderState × Bool
  | [], s => (s, false)
  | tok :: rest, s =>
      let nc := parseToken tok
      if pluginLoaded s nc.1 then constructPhase env rest s
      else
        match env nc.1 with
        | some pd =>
            let eid := s.nextEid
            let e : PluginEntry :=
              { eid := eid, name := nc.1, critical := nc.2,
                hasFeaturesIntf := pd.hasFeaturesIntf,
                loadOk := pd.loadOk, features := [] }
            let s1 := { s with
              plugins := s.plugins ++ [e],
              nextEid := eid + 1 }
            constructPhase env rest
              (registerFeatures s1 eid pd.hasFeaturesIntf pd.block)
        | none =>
            if nc.2 then (s, true) else constructPhase env rest s

/-- The registry update of unregister_feature, parametrised by the map
from provided-feature ids to their PROVIDE descriptors (the pool is never
changed while features are unregistered).  Look up the row keyed `equals`
to the descriptor of `pid`, remove `pid` from its providers, drop the row
when the provider list became empty, and otherwise re-point the key to the
first remaining provider when the removed provider owned the key. -/
def unregStep (dm : Nat → Feature) (pid : Nat)
    (rows : List RegisteredFeature) : List RegisteredFeature :=
  match rows.findIdx? (fun r => featureEquals r.key (dm pid)) with
  | none => rows
  | some i =>
      let r := rows.getD i default
      let ps := r.providers.filter (fun q => q ≠ pid)
      if ps.isEmpty then rows.eraseIdx i
      else if r.keyOwner == pid then
        rows.set i
          { key := dm (ps.headD 0), keyOwner := ps.headD 0, providers := ps }
      else rows.set i { r with providers := ps }

/-- unregister_feature: update the registry and free the provided feature
(the pool keeps the record; existence is membership in the entry, registry
and stack lists). -/
def unregisterFeature (s : LoaderState) (pid : Nat) : LoaderState :=
  { s with registry := unregStep (fun q => descrOf s q) pid s.registry }

/-- Remove a provided-feature id from the feature list of its owning
entry (entry->features->remove). -/
def entryRemoveFeature (s : LoaderState) (eid pid : Nat) : LoaderState :=
  { s with plugins := s.plugins.map (fun e =>
      if e.eid == eid then
        { e with features := e.features.filter (fun q => q ≠ pid) }
      else e) }

/-- unregister_features: walk an entry's feature list, removing and
unregistering each provided feature. -/
def unregisterFeaturesList (s : LoaderState) (fids : List Nat) :
    LoaderState :=
  fids.foldl unregisterFeature s

/-- Remove plugins no plugin features could be loaded from: entries whose
module supports the features interface but has no loaded feature are
removed, their features unregistered and the entry destroyed. -/
def purgeGo : List PluginEntry → LoaderState → LoaderState
  | [], s => s
  | e :: rest, s =>
      if e.hasFeaturesIntf &&
          !(e.features.any (fun pid => (poolGet s pid).loaded)) then
        let s1 := { s with
          plugins := s.plugins.filter (fun e2 => e2.eid ≠ e.eid) }
        purgeGo rest (unregisterFeaturesList s1 e.features)
      else purgeGo rest s

/-- purge_plugins. -/
def purgePlugins (s : LoaderState) : LoaderState :=
  purgeGo s.plugins s

/-- Build the space-separated list of the names of all plugins
(loaded_plugins_list). -/
def renderNames (s : LoaderState) : String :=
  String.intercalate (" ") (s.plugins.map (fun e => e.name))

/-- load_plugins on an already tokenized plugin list: construct and
register the named modules, abort on a critical construction failure,
resolve features, flag failure when stats.critical is positive, purge
contribution-less plugins, and rebuild the loaded-plugins string on
success.  Returns the final state and the Bool result of load. -/
def loadPlugins (fuel : Nat) (env : Env) (s : LoaderState)
    (toks : List String) : LoaderState × Bool :=
  let c := constructPhase env toks s
  if c.2 then (c.1, false)
  else
    let s2 := loadFeatures fuel c.1
    let criticalFailed := decide (0 < s2.stats.critical)
    let s3 := purgePlugins s2
    if criticalFailed then (s3, false)
    else ({ s3 with loadedPlugins := some (renderNames s3) }, true)

/-- Split a character list on spaces, accumulating the current token in
reverse. -/
def splitSpaces : List Char → List Char → List String
  | [], acc => if acc.isEmpty then [] else [String.mk acc.reverse]
  | c :: cs, acc =>
      if c == Char.ofNat 32 then
        if acc.isEmpty then splitSpaces cs []
        else String.mk acc.reverse :: splitSpaces cs []
      else splitSpaces cs (c :: acc)

/-- Split a plugin list on spaces, dropping empty tokens
(enumerator_create_token with " " as separator and trim characters). -/
def tokenize (list : String) : List String :=
  splitSpaces list.toList []

/-- The public load method over a plugin-list string. -/
def load (fuel : Nat) (env : Env) (s : LoaderState) (list : String) :
    LoaderState × Bool :=
  loadPlugins fuel env s (tokenize list)

/-- unload_features: walk the activation stack front to back, removing
each provided feature from the stack and from its owning entry and
unregistering it (the external unload callback has no effect on the
loader state). -/
def unloadGo : List Nat → LoaderState → LoaderState
  | [], s => s
  | pid :: rest, s =>
      let eid := (poolGet s pid).entry
      let s1 := { s with loadedStack := rest }
      let s2 := entryRemoveFeature s1 eid pid
      unloadGo rest (unregisterFeature s2 pid)

/-- unload_features. -/
def unloadFeatures (s : LoaderState) : LoaderState :=
  unloadGo s.loadedStack s

/-- The plugin teardown loop of unload: remove entries from the back of
the module list, unregistering the features each still holds. -/
def unloadAllPlugins (s : LoaderState) : LoaderState :=
  let entries := s.plugins.reverse
  entries.foldl (fun a e => unregisterFeaturesList a e.features)
    { s with plugins := [] }

/-- unload: tear down features then plugins in reverse order, drop the
loaded-plugins string and zero the statistics. -/
def unload (s : LoaderState) : LoaderState :=
  let s1 := unloadAllPlugins (unloadFeatures s)
  { s1 with loadedPlugins := none, stats := ⟨0, 0, 0⟩ }

/-- loaded_plugins: the cached string, or the empty string when unset. -/
def loadedPluginsStr (s : LoaderState) : String :=
  s.loadedPlugins.getD ("")

/-! ### Basic pool lemmas -/

theorem poolGet_oor {s : LoaderState} {pid : Nat}
    (h : s.pool.length ≤ pid) : poolGet s pid = default := by
  simp only [poolGet]
  exact List.getD_eq_default _ _ h

theorem loaded_lt_length {s : LoaderState} {pid : Nat}
    (h : (poolGet s pid).loaded = true) : pid < s.pool.length := by
  by_contra hc
  rw [poolGet_oor (Nat.le_of_not_lt hc)] at h
  simp [default, Inhabited.default] at h

theorem modifyProvided_oor {s : LoaderState} {pid : Nat}
    {f : ProvidedFeature → ProvidedFeature} (h : s.pool.length ≤ pid) :
    modifyProvided s pid f = s := by
  simp [modifyProvided, List.set_eq_of_length_le h]

theorem length_modifyProvided (s : LoaderState) (pid : Nat)
    (f : ProvidedFeature → ProvidedFeature) :
    (modifyProvided s pid f).pool.length = s.pool.length := by
  simp [modifyProvided]

theorem poolGet_modify_self {s : LoaderState} {pid : Nat}
    {f : ProvidedFeature → ProvidedFeature} (h : pid < s.pool.length) :
    poolGet (modifyProvided s pid f) pid = f (poolGet s pid) := by
  simp [modifyProvided, poolGet, List.getD, List.getElem?_set_self, h]

theorem poolGet_modify_ne {s : LoaderState} {pid q : Nat}
    {f : ProvidedFeature → ProvidedFeature} (h : q ≠ pid) :
    poolGet (modifyProvided s pid f) q = poolGet s q := by
  simp [modifyProvided, poolGet, List.getD, List.getElem?_set_ne,
    (Ne.symm h)]

/-! ### Monotone evolution of the state under the resolver -/

/-- What the dependency resolver may do to the loader state: the pool
keeps its length and the immutable fields of every provided feature, the
loaded and failed flags only ever turn on, the loading flags are restored,
the registry and plugin list are untouched and the statistics only
grow. -/
structure Mono (s s' : LoaderState) : Prop where
  lenEq : s'.pool.length = s.pool.length
  entryEq : ∀ q, (poolGet s' q).entry = (poolGet s q).entry
  regEq : ∀ q, (poolGet s' q).reg = (poolGet s q).reg
  featsEq : ∀ q, (poolGet s' q).feats = (poolGet s q).feats
  loadedMono : ∀ q, (poolGet s q).loaded = true → (poolGet s' q).loaded = true
  failedMono : ∀ q, (poolGet s q).failed = true → (poolGet s' q).failed = true
  loadingEq : ∀ q, (poolGet s' q).loading = (poolGet s q).loading
  registryEq : s'.registry = s.registry
  pluginsEq : s'.plugins = s.plugins
  statsFailedLe : s.stats.failed ≤ s'.stats.failed
  statsDependsLe : s.stats.depends ≤ s'.stats.depends
  statsCriticalLe : s.stats.critical ≤ s'.stats.critical

theorem monoRefl (s : LoaderState) : Mono s s :=
  Mono.mk rfl (fun _ => Eq.refl _) (fun _ => Eq.refl _) (fun _ => Eq.refl _)
    (fun _ h => h) (fun _ h => h) (fun _ => Eq.refl _) rfl rfl
    (Nat.le_refl _) (Nat.le_refl _) (Nat.le_refl _)

theorem monoTrans {s1 s2 s3 : LoaderState} (a : Mono s1 s2)
    (b : Mono s2 s3) : Mono s1 s3 :=
  Mono.mk (b.lenEq.trans a.lenEq)
    (fun q => (b.entryEq q).trans (a.entryEq q))
    (fun q => (b.regEq q).trans (a.regEq q))
    (fun q => (b.featsEq q).trans (a.featsEq q))
    (fun q h => b.loadedMono q (a.loadedMono q h))
    (fun q h => b.failedMono q (a.failedMono q h))
    (fun q => (b.loadingEq q).trans (a.loadingEq q))
    (b.registryEq.trans a.registryEq)
    (b.pluginsEq.trans a.pluginsEq)
    (Nat.le_trans a.statsFailedLe b.statsFailedLe)
    (Nat.le_trans a.statsDependsLe b.statsDependsLe)
    (Nat.le_trans a.statsCriticalLe b.statsCriticalLe)

theorem mono_setLoaded (s : LoaderState) (pid : Nat) :
    Mono s (setLoaded s pid) := by
  by_cases h : pid < s.pool.length
  · refine Mono.mk (length_modifyProvided s pid _) ?_ ?_ ?_ ?_ ?_ ?_
      rfl rfl (Nat.le_refl _) (Nat.le_refl _) (Nat.le_refl _) <;>
      intro q <;> by_cases hq : q = pid <;>
      simp [setLoaded, hq, poolGet_modify_self h, poolGet_modify_ne, *]
  · rw [setLoaded, modifyProvided_oor (Nat.le_of_not_lt h)]
    exact monoRefl s

theorem mono_setFailed (s : LoaderState) (pid : Nat) :
    Mono s (setFailed s pid) := by
  by_cases h : pid < s.pool.length
  · refine Mono.mk (length_modifyProvided s pid _) ?_ ?_ ?_ ?_ ?_ ?_
      rfl rfl (Nat.le_refl _) (Nat.le_refl _) (Nat.le_refl _) <;>
      intro q <;> by_cases hq : q = pid <;>
      simp [setFailed, hq, poolGet_modify_self h, poolGet_modify_ne, *]
  · rw [setFailed, modifyProvided_oor (Nat.le_of_not_lt h)]
    exact monoRefl s

theorem mono_failAccounting (s : LoaderState) (pid : Nat) (b : Bool) :
    Mono s (failAccounting s pid b) := by
  refine monoTrans (mono_setFailed s pid) ?_
  refine Mono.mk rfl (fun _ => Eq.refl _) (fun _ => Eq.refl _)
    (fun _ => Eq.refl _) (fun _ h => h) (fun _ h => h) (fun _ => Eq.refl _)
    rfl rfl ?_ ?_ ?_ <;> simp [failAccounting]

theorem poolGet_setLoading_entry (s : LoaderState) (pid : Nat) (b : Bool)
    (q : Nat) : (poolGet (setLoading s pid b) q).entry =
      (poolGet s q).entry := by
  by_cases hq : q = pid
  · subst hq
    by_cases h : q < s.pool.length
    · rw [setLoading, poolGet_modify_self h]
    · rw [setLoading, modifyProvided_oor (Nat.le_of_not_lt h)]
  · rw [setLoading, poolGet_modify_ne hq]

theorem poolGet_setLoading_reg (s : LoaderState) (pid : Nat) (b : Bool)
    (q : Nat) : (poolGet (setLoading s pid b) q).reg =
      (poolGet s q).reg := by
  by_cases hq : q = pid
  · subst hq
    by_cases h : q < s.pool.length
    · rw [setLoading, poolGet_modify_self h]
    · rw [setLoading, modifyProvided_oor (Nat.le_of_not_lt h)]
  · rw [setLoading, poolGet_modify_ne hq]

theorem poolGet_setLoading_feats (s : LoaderState) (pid : Nat) (b : Bool)
    (q : Nat) : (poolGet (setLoading s pid b) q).feats =
      (poolGet s q).feats := by
  by_cases hq : q = pid
  · subst hq
    by_cases h : q < s.pool.length
    · rw [setLoading, poolGet_modify_self h]
    · rw [setLoading, modifyProvided_oor (Nat.le_of_not_lt h)]
  · rw [setLoading, poolGet_modify_ne hq]

theorem poolGet_setLoading_loaded (s : LoaderState) (pid : Nat) (b : Bool)
    (q : Nat) : (poolGet (setLoading s pid b) q).loaded =
      (poolGet s q).loaded := by
  by_cases hq : q = pid
  · subst hq
    by_cases h : q < s.pool.length
    · rw [setLoading, poolGet_modify_self h]
    · rw [setLoading, modifyProvided_oor (Nat.le_of_not_lt h)]
  · rw [setLoading, poolGet_modify_ne hq]

theorem poolGet_setLoading_failed (s : LoaderState) (pid : Nat) (b : Bool)
    (q : Nat) : (poolGet (setLoading s pid b) q).failed =
      (poolGet s q).failed := by
  by_cases hq : q = pid
  · subst hq
    by_cases h : q < s.pool.length
    · rw [setLoading, poolGet_modify_self h]
    · rw [setLoading, modifyProvided_oor (Nat.le_of_not_lt h)]
  · rw [setLoading, poolGet_modify_ne hq]

theorem poolGet_setLoading_loading_ne (s : LoaderState) (pid : Nat)
    (b : Bool) (q : Nat) (hq : q ≠ pid) :
    (poolGet (setLoading s pid b) q).loading = (poolGet s q).loading := by
  rw [setLoading, poolGet_modify_ne hq]

theorem poolGet_setLoading_loading_self (s : LoaderState) (pid : Nat)
    (b : Bool) (h : pid < s.pool.length) :
    (poolGet (setLoading s pid b) pid).loading = b := by
  rw [setLoading, poolGet_modify_self h]

theorem length_setLoading (s : LoaderState) (pid : Nat) (b : Bool) :
    (setLoading s pid b).pool.length = s.pool.length :=
  length_modifyProvided s pid _

/-- Restoring the loading flag around the recursive load of a feature
preserves the monotone-evolution relation (the wrap performed by
load_provided). -/
theorem mono_loading_wrap {s s2 : LoaderState} {pid : Nat}
    (hl : (poolGet s pid).loading = false)
    (hm : Mono (setLoading s pid true) s2) :
    Mono s (setLoading s2 pid false) := by
  have hlen2 : s2.pool.length = s.pool.length :=
    hm.lenEq.trans (length_setLoading s pid true)
  refine Mono.mk ?_ ?_ ?_ ?_ ?_ ?_ ?_ ?_ ?_ ?_ ?_ ?_
  · rw [length_setLoading, hlen2]
  · intro q
    rw [poolGet_setLoading_entry, hm.entryEq q, poolGet_setLoading_entry]
  · intro q
    rw [poolGet_setLoading_reg, hm.regEq q, poolGet_setLoading_reg]
  · intro q
    rw [poolGet_setLoading_feats, hm.featsEq q, poolGet_setLoading_feats]
  · intro q hld
    rw [poolGet_setLoading_loaded]
    exact hm.loadedMono q (by rw [poolGet_setLoading_loaded]; exact hld)
  · intro q hfd
    rw [poolGet_setLoading_failed]
    exact hm.failedMono q (by rw [poolGet_setLoading_failed]; exact hfd)
  · intro q
    by_cases hq : q = pid
    · subst hq
      by_cases h : q < s.pool.length
      · rw [poolGet_setLoading_loading_self s2 q false (hlen2 ▸ h), hl]
      · have hle := Nat.le_of_not_lt h
        rw [setLoading, modifyProvided_oor (hlen2 ▸ hle)]
        have h1 := hm.loadingEq q
        rw [setLoading, modifyProvided_oor hle] at h1
        exact h1
    · rw [poolGet_setLoading_loading_ne s2 pid false q hq, hm.loadingEq q,
        poolGet_setLoading_loading_ne s pid true q hq]
  · exact hm.registryEq
  · exact hm.pluginsEq
  · exact hm.statsFailedLe
  · exact hm.statsDependsLe
  · exact hm.statsCriticalLe

/-- The resolver only evolves the state monotonically. -/
theorem mono_exec : ∀ (fuel : Nat) (t : Task) (s : LoaderState),
    Mono s (exec fuel t s).1 := by
  intro fuel
  induction fuel with
  | zero => intro t s; exact monoRefl s
  | succ fuel ih =>
    intro t s
    cases t with
    | provided pid level =>
        simp only [exec]
        split
        · exact monoRefl s
        · split
          · exact monoRefl s
          · rename_i hnl hload
            have hl : (poolGet s pid).loading = false := by
              simp at hload; exact hload
            exact mono_loading_wrap hl
              (ih (Task.feature pid (level + 1)) (setLoading s pid true))
    | feature pid level =>
        simp only [exec]
        split
        · split
          · refine monoTrans
              (ih (Task.deps (poolGet s pid).feats.tail level) s)
              (monoTrans (mono_setLoaded _ pid) ?_)
            exact Mono.mk rfl (fun _ => Eq.refl _) (fun _ => Eq.refl _)
              (fun _ => Eq.refl _) (fun _ h => h) (fun _ h => h)
              (fun _ => Eq.refl _) rfl rfl (Nat.le_refl _) (Nat.le_refl _)
              (Nat.le_refl _)
          · exact monoTrans
              (ih (Task.deps (poolGet s pid).feats.tail level) s)
              (mono_failAccounting _ pid false)
        · exact monoTrans
            (ih (Task.deps (poolGet s pid).feats.tail level) s)
            (mono_failAccounting _ pid true)
    | deps ds level =>
        cases ds with
        | nil => exact monoRefl s
        | cons d rest =>
            simp only [exec]
            split
            · split
              · exact monoTrans (ih _ s) (ih _ _)
              · split
                · exact monoTrans (ih _ s) (ih _ _)
                · exact ih _ s
            · exact monoRefl s
    | dloop k d level =>
        cases k with
        | zero => exact monoRefl s
        | succ k =>
            simp only [exec]
            split
            · exact monoTrans (ih _ s) (ih _ _)
            · exact monoRefl s
    | registered pids level =>
        cases pids with
        | nil => exact monoRefl s
        | cons pid rest =>
            simp only [exec]
            exact monoTrans (ih _ s) (ih _ _)

/-! ### Dependency satisfaction -/

theorem featureEquals_refl (a : Feature) : featureEquals a a = true := by
  simp [featureEquals]

/-- A generic transport: a projection not touched by a pool update is
preserved at every index. -/
theorem poolGet_modify_comm {α : Type} {s : LoaderState} {pid : Nat}
    {f : ProvidedFeature → ProvidedFeature} (proj : ProvidedFeature → α)
    (hproj : ∀ p, proj (f p) = proj p) (q : Nat) :
    proj (poolGet (modifyProvided s pid f) q) = proj (poolGet s q) := by
  by_cases hq : q = pid
  · subst hq
    by_cases h : q < s.pool.length
    · rw [poolGet_modify_self h, hproj]
    · rw [modifyProvided_oor (Nat.le_of_not_lt h)]
  · rw [poolGet_modify_ne hq]

/-- The dependency descriptor `d` is satisfied by some loaded provided
feature whose PROVIDE descriptor matches it. -/
def SatLoaded (s : LoaderState) (d : Feature) : Prop :=
  ∃ q, (poolGet s q).loaded = true ∧ featureMatches (descrOf s q) d = true

/-- Registry consistency: every provider recorded in a registry row is a
live pool index whose PROVIDE descriptor `equals` the key of its row. -/
def WFreg (s : LoaderState) : Prop :=
  ∀ r ∈ s.registry, ∀ q ∈ r.providers,
    q < s.pool.length ∧ featureEquals (descrOf s q) r.key = true

/-- Every loaded provided feature has each hard dependency of its
dependency suffix satisfied by some loaded provided feature. -/
def DepSat (s : LoaderState) : Prop :=
  ∀ pid, (poolGet s pid).loaded = true →
    ∀ d ∈ hardDepsOf (poolGet s pid).feats.tail, SatLoaded s d

theorem descrOf_of_mono {s s2 : LoaderState} (hm : Mono s s2) (q : Nat) :
    descrOf s2 q = descrOf s q := by
  rw [descrOf, descrOf, hm.featsEq q]

theorem satLoaded_of_mono {s s2 : LoaderState} (hm : Mono s s2)
    {d : Feature} (h : SatLoaded s d) : SatLoaded s2 d := by
  obtain ⟨q, hl, hmch⟩ := h
  exact ⟨q, hm.loadedMono q hl, by rw [descrOf_of_mono hm]; exact hmch⟩

theorem wfreg_of_mono {s s2 : LoaderState} (hm : Mono s s2)
    (hw : WFreg s) : WFreg s2 := by
  intro r hr q hq
  rw [hm.registryEq] at hr
  obtain ⟨hlt, heq⟩ := hw r hr q hq
  exact ⟨by rw [hm.lenEq]; exact hlt, by rw [descrOf_of_mono hm]; exact heq⟩

theorem depsat_of_pool_eq {s s2 : LoaderState} (h : s2.pool = s.pool)
    (hd : DepSat s) : DepSat s2 := by
  have hp : ∀ q, poolGet s2 q = poolGet s q := by
    intro q; rw [poolGet, poolGet, h]
  intro pid hl d hdep
  rw [hp pid] at hl hdep
  obtain ⟨q, hql, hqm⟩ := hd pid hl d hdep
  exact ⟨q, by rw [hp q]; exact hql, by rw [descrOf, hp q]; exact hqm⟩

theorem wfreg_of_eq {s s2 : LoaderState} (hpool : s2.pool = s.pool)
    (hreg : s2.registry = s.registry) (hw : WFreg s) : WFreg s2 := by
  have hp : ∀ q, poolGet s2 q = poolGet s q := by
    intro q; rw [poolGet, poolGet, hpool]
  intro r hr q hq
  rw [hreg] at hr
  obtain ⟨hlt, heq⟩ := hw r hr q hq
  exact ⟨by rw [hpool]; exact hlt, by rw [descrOf, hp q]; exact heq⟩

/-- A positive find_compatible_feature yields, under registry consistency,
a loaded provided feature whose PROVIDE descriptor matches the
dependency. -/
theorem findCompatible_satLoaded {s : LoaderState} {d : Feature}
    (hw : WFreg s) (h : findCompatible s d = true) : SatLoaded s d := by
  rw [findCompatible, List.any_eq_true] at h
  obtain ⟨r, hr, hcond⟩ := h
  rw [Bool.and_eq_true, List.any_eq_true] at hcond
  obtain ⟨hmk, q, hq, hql⟩ := hcond
  obtain ⟨hlt, heq⟩ := hw r hr q hq
  exact ⟨q, hql, featureMatches_congr heq (featureMatches_symm hmk)⟩

theorem hardDepsOf_nil : hardDepsOf [] = [] := rfl

theorem hardDepsOf_cons_stop {d : Feature} {rest : List Feature}
    (h : (d.kind == FeatureKind.DEPENDS ||
      d.kind == FeatureKind.SDEPEND) = false) :
    hardDepsOf (d :: rest) = [] := by
  simp [hardDepsOf, depSuffixOf, List.takeWhile, h]

theorem hardDepsOf_cons_go {d : Feature} {rest : List Feature}
    (h : (d.kind == FeatureKind.DEPENDS ||
      d.kind == FeatureKind.SDEPEND) = true) :
    hardDepsOf (d :: rest) =
      (if d.kind == FeatureKind.DEPENDS then [d] else []) ++
        hardDepsOf rest := by
  by_cases hd : d.kind == FeatureKind.DEPENDS
  · simp [hardDepsOf, depSuffixOf, List.takeWhile, h, List.filter, hd]
  · simp only [Bool.or_eq_true] at h
    rcases h with h | h
    · exact absurd h hd
    · simp [hardDepsOf, depSuffixOf, List.takeWhile, List.filter, h, hd]

/-- When load_dependencies returns true, every hard dependency of the
suffix it walked is satisfied by a loaded provided feature in the
resulting state. -/
theorem ldeps_true_sat : ∀ (ds : List Feature) (fuel : Nat)
    (s : LoaderState) (level : Nat), WFreg s →
    (exec fuel (Task.deps ds level) s).2 = true →
    ∀ d ∈ hardDepsOf ds, SatLoaded (exec fuel (Task.deps ds level) s).1 d := by
  intro ds
  induction ds with
  | nil =>
      intro fuel s level _ _ d hd
      rw [hardDepsOf_nil] at hd
      exact absurd hd (List.not_mem_nil d)
  | cons d0 rest ih =>
      intro fuel s level hw hres d hd
      cases fuel with
      | zero => simp [exec] at hres
      | succ fuel =>
          by_cases hk : (d0.kind == FeatureKind.DEPENDS ||
              d0.kind == FeatureKind.SDEPEND) = true
          · rw [hardDepsOf_cons_go hk] at hd
            simp only [exec, hk, if_true] at hres ⊢
            set s1 := (exec fuel
              (Task.dloop (s.pool.length + 1) d0 level) s).1 with hs1
            have hw1 : WFreg s1 := wfreg_of_mono (mono_exec fuel _ s) hw
            by_cases hfc : findCompatible s1 d0 = true
            · simp only [hfc, if_true] at hres ⊢
              rw [List.mem_append] at hd
              rcases hd with hd | hd
              · have hd0 : d = d0 := by
                  by_cases hdk : d0.kind == FeatureKind.DEPENDS <;>
                    simp [hdk] at hd
                  exact hd
                subst hd0
                exact satLoaded_of_mono (mono_exec fuel _ s1)
                  (findCompatible_satLoaded hw1 hfc)
              · exact ih fuel s1 level hw1 hres d hd
            · simp only [hfc, if_false, Bool.false_eq_true] at hres ⊢
              by_cases hsd : (d0.kind == FeatureKind.SDEPEND) = true
              · simp only [hsd, if_true] at hres ⊢
                rw [List.mem_append] at hd
                rcases hd with hd | hd
                · have : d0.kind == FeatureKind.DEPENDS := by
                    by_cases hdk : d0.kind == FeatureKind.DEPENDS <;>
                      simp [hdk] at hd
                    · exact hdk
                  simp at hsd this
                  rw [this] at hsd
                  cases hsd
                · exact ih fuel s1 level hw1 hres d hd
              · simp only [hsd, if_false] at hres
                cases hres
          · have hk2 : (d0.kind == FeatureKind.DEPENDS ||
                d0.kind == FeatureKind.SDEPEND) = false := by
              simpa using hk
            rw [hardDepsOf_cons_stop hk2] at hd
            exact absurd hd (List.not_mem_nil d)

/-- Transport of dependency satisfaction along a pool whose loaded flags
and descriptor slices agree pointwise. -/
theorem depsat_transport {s s2 : LoaderState}
    (hlo : ∀ q, (poolGet s2 q).loaded = (poolGet s q).loaded)
    (hfe : ∀ q, (poolGet s2 q).feats = (poolGet s q).feats)
    (hd : DepSat s) : DepSat s2 := by
  intro p hl d hdep
  rw [hlo p] at hl
  rw [hfe p] at hdep
  obtain ⟨q, hql, hqm⟩ := hd p hl d hdep
  exact ⟨q, by rw [hlo q]; exact hql, by rw [descrOf, hfe q]; exact hqm⟩

theorem wfreg_transport {s s2 : LoaderState}
    (hlen : s2.pool.length = s.pool.length)
    (hfe : ∀ q, (poolGet s2 q).feats = (poolGet s q).feats)
    (hreg : s2.registry = s.registry) (hw : WFreg s) : WFreg s2 := by
  intro r hr q hq
  rw [hreg] at hr
  obtain ⟨hlt, heq⟩ := hw r hr q hq
  exact ⟨by rw [hlen]; exact hlt, by rw [descrOf, hfe q]; exact heq⟩

theorem depsat_setLoading {s : LoaderState} {pid : Nat} {b : Bool}
    (hd : DepSat s) : DepSat (setLoading s pid b) :=
  depsat_transport (poolGet_setLoading_loaded s pid b)
    (poolGet_setLoading_feats s pid b) hd

theorem wfreg_setLoading {s : LoaderState} {pid : Nat} {b : Bool}
    (hw : WFreg s) : WFreg (setLoading s pid b) :=
  wfreg_transport (length_setLoading s pid b)
    (poolGet_setLoading_feats s pid b) rfl hw

theorem poolGet_failAcc_loaded (s : LoaderState) (pid : Nat) (b : Bool)
    (q : Nat) : (poolGet (failAccounting s pid b) q).loaded =
      (poolGet s q).loaded :=
  @poolGet_modify_comm Bool s pid (fun p => { p with failed := true })
    (fun p => p.loaded) (fun _ => rfl) q

theorem poolGet_failAcc_feats (s : LoaderState) (pid : Nat) (b : Bool)
    (q : Nat) : (poolGet (failAccounting s pid b) q).feats =
      (poolGet s q).feats :=
  @poolGet_modify_comm (List Feature) s pid
    (fun p => { p with failed := true }) (fun p => p.feats)
    (fun _ => rfl) q

theorem depsat_failAccounting {s : LoaderState} {pid : Nat} {b : Bool}
    (hd : DepSat s) : DepSat (failAccounting s pid b) :=
  depsat_transport (poolGet_failAcc_loaded s pid b)
    (poolGet_failAcc_feats s pid b) hd

theorem poolGet_setLoaded_feats (s : LoaderState) (pid : Nat) (q : Nat) :
    (poolGet (setLoaded s pid) q).feats = (poolGet s q).feats :=
  @poolGet_modify_comm (List Feature) s pid
    (fun p => { p with loaded := true }) (fun p => p.feats)
    (fun _ => rfl) q

theorem poolGet_setLoaded_loaded_ne (s : LoaderState) (pid q : Nat)
    (hq : q ≠ pid) :
    (poolGet (setLoaded s pid) q).loaded = (poolGet s q).loaded := by
  rw [setLoaded, poolGet_modify_ne hq]

/-- The resolver preserves dependency satisfaction: a feature is marked
loaded only after load_dependencies succeeded, which checked every hard
dependency against the registry. -/
theorem depsat_exec : ∀ (fuel : Nat) (t : Task) (s : LoaderState),
    WFreg s → DepSat s → DepSat (exec fuel t s).1 := by
  intro fuel
  induction fuel with
  | zero => intro t s _ hd; exact hd
  | succ fuel ih =>
    intro t s hw hd
    cases t with
    | provided pid level =>
        simp only [exec]
        split
        · exact hd
        · split
          · exact hd
          · have hd2 := ih (Task.feature pid (level + 1))
              (setLoading s pid true) (wfreg_setLoading hw)
              (depsat_setLoading hd)
            exact depsat_transport
              (poolGet_setLoading_loaded _ pid false)
              (poolGet_setLoading_feats _ pid false) hd2
    | feature pid level =>
        simp only [exec]
        split
        · rename_i hres
          split
          · rename_i hok
            have hm1 : Mono s
                (exec fuel (Task.deps (poolGet s pid).feats.tail level) s).1 :=
              mono_exec fuel _ s
            have hw1 := wfreg_of_mono hm1 hw
            have hd1 := ih (Task.deps (poolGet s pid).feats.tail level) s hw hd
            intro p hl d hdep
            by_cases hp : p = pid
            · subst hp
              have hfe : (poolGet (setLoaded
                  (exec fuel (Task.deps (poolGet s p).feats.tail level) s).1 p)
                    p).feats = (poolGet s p).feats := by
                rw [poolGet_setLoaded_feats, hm1.featsEq p]
              have hdep2 : d ∈ hardDepsOf (poolGet s p).feats.tail := by
                rw [show (poolGet ({ setLoaded
                  (exec fuel (Task.deps (poolGet s p).feats.tail level) s).1 p
                    with loadedStack := p :: (setLoaded
                  (exec fuel (Task.deps (poolGet s p).feats.tail level) s).1
                    p).loadedStack }) p).feats = (poolGet s p).feats from hfe]
                  at hdep
                exact hdep
              have hsat := ldeps_true_sat (poolGet s p).feats.tail fuel s
                level hw hres d hdep2
              obtain ⟨q, hql, hqm⟩ := satLoaded_of_mono
                (mono_setLoaded _ p) hsat
              exact ⟨q, hql, hqm⟩
            · have hl2 : (poolGet
                  (exec fuel (Task.deps (poolGet s pid).feats.tail level) s).1
                    p).loaded = true := by
                rw [show (poolGet ({ setLoaded
                  (exec fuel (Task.deps (poolGet s pid).feats.tail level) s).1
                    pid with loadedStack := pid :: (setLoaded
                  (exec fuel (Task.deps (poolGet s pid).feats.tail level) s).1
                    pid).loadedStack }) p).loaded = (poolGet
                  (exec fuel (Task.deps (poolGet s pid).feats.tail level) s).1
                    p).loaded from poolGet_setLoaded_loaded_ne _ pid p hp]
                  at hl
                exact hl
              have hdep2 : d ∈ hardDepsOf (poolGet
                  (exec fuel (Task.deps (poolGet s pid).feats.tail level) s).1
                    p).feats.tail := by
                rw [show (poolGet ({ setLoaded
                  (exec fuel (Task.deps (poolGet s pid).feats.tail level) s).1
                    pid with loadedStack := pid :: (setLoaded
                  (exec fuel (Task.deps (poolGet s pid).feats.tail level) s).1
                    pid).loadedStack }) p).feats = (poolGet
                  (exec fuel (Task.deps (poolGet s pid).feats.tail level) s).1
                    p).feats from poolGet_setLoaded_feats _ pid p] at hdep
                exact hdep
              obtain ⟨q, hql, hqm⟩ := satLoaded_of_mono (mono_setLoaded _ pid)
                (hd1 p hl2 d hdep2)
              exact ⟨q, hql, hqm⟩
          · exact depsat_failAccounting
              (ih (Task.deps (poolGet s pid).feats.tail level) s hw hd)
        · exact depsat_failAccounting
            (ih (Task.deps (poolGet s pid).feats.tail level) s hw hd)
    | deps ds level =>
        cases ds with
        | nil => exact hd
        | cons d0 rest =>
            simp only [exec]
            split
            · have hd1 := ih (Task.dloop (s.pool.length + 1) d0 level) s hw hd
              have hw1 := wfreg_of_mono
                (mono_exec fuel (Task.dloop (s.pool.length + 1) d0 level) s) hw
              split
              · exact ih (Task.deps rest level) _ hw1 hd1
              · split
                · exact ih (Task.deps rest level) _ hw1 hd1
                · exact hd1
            · exact hd
    | dloop k d level =>
        cases k with
        | zero => exact hd
        | succ k =>
            simp only [exec]
            split
            · rename_i r heq
              have hd1 := ih (Task.registered r.providers level) s hw hd
              have hw1 := wfreg_of_mono
                (mono_exec fuel (Task.registered r.providers level) s) hw
              exact ih (Task.dloop k d level) _ hw1 hd1
            · exact hd
    | registered pids level =>
        cases pids with
        | nil => exact hd
        | cons pid rest =>
            simp only [exec]
            have hd1 := ih (Task.provided pid level) s hw hd
            have hw1 := wfreg_of_mono
              (mono_exec fuel (Task.provided pid level) s) hw
            exact ih (Task.registered rest level) _ hw1 hd1

/-! ### Preservation through registration, construction and purge -/

theorem poolGet_append_lt {s : LoaderState} {p : ProvidedFeature} {q : Nat}
    (h : q < s.pool.length) :
    poolGet { s with pool := s.pool ++ [p] } q = poolGet s q := by
  simp [poolGet, List.getD, List.getElem?_append_left h]

theorem poolGet_append_self {s : LoaderState} {p : ProvidedFeature} :
    poolGet { s with pool := s.pool ++ [p] } s.pool.length = p := by
  simp [poolGet, List.getD, List.getElem?_concat_length]

theorem poolGet_append_gt {s : LoaderState} {p : ProvidedFeature} {q : Nat}
    (h : s.pool.length + 1 ≤ q) :
    poolGet { s with pool := s.pool ++ [p] } q = default := by
  apply poolGet_oor
  simp
  omega

theorem depsat_append {s : LoaderState} {p : ProvidedFeature}
    (hp : p.loaded = false) (hd : DepSat s) :
    DepSat { s with pool := s.pool ++ [p] } := by
  intro q hl d hdep
  rcases Nat.lt_trichotomy q s.pool.length with h | h | h
  · rw [poolGet_append_lt h] at hl hdep
    obtain ⟨q2, hq2l, hq2m⟩ := hd q hl d hdep
    have hq2 : q2 < s.pool.length := loaded_lt_length hq2l
    refine ⟨q2, ?_, ?_⟩
    · rw [poolGet_append_lt hq2]; exact hq2l
    · rw [descrOf, poolGet_append_lt hq2]; exact hq2m
  · rw [h, poolGet_append_self] at hl
    rw [hp] at hl
    cases hl
  · rw [poolGet_append_gt h] at hl
    simp [default, Inhabited.default] at hl

theorem wfreg_append {s : LoaderState} {p : ProvidedFeature}
    (hw : WFreg s) : WFreg { s with pool := s.pool ++ [p] } := by
  intro r hr q hq
  obtain ⟨hlt, heq⟩ := hw r hr q hq
  refine ⟨by simp; omega, ?_⟩
  rw [descrOf, poolGet_append_lt hlt]
  exact heq

/-- regAppend preserves registry consistency when the appended provider's
descriptor `equals` the feature searched for. -/
theorem regAppend_wf {dm : Nat → Feature} {L : Nat} :
    ∀ (rows : List RegisteredFeature) (f : Feature) (pid : Nat),
    (∀ r ∈ rows, ∀ q ∈ r.providers,
      q < L ∧ featureEquals (dm q) r.key = true) →
    pid < L → featureEquals (dm pid) f = true →
    ∀ r ∈ regAppend rows f pid, ∀ q ∈ r.providers,
      q < L ∧ featureEquals (dm q) r.key = true := by
  intro rows
  induction rows with
  | nil => intro f pid _ _ _ r hr; rw [regAppend] at hr; cases hr
  | cons r0 rest ih =>
      intro f pid hrows hpid hf r hr q hq
      rw [regAppend] at hr
      by_cases hkey : featureEquals r0.key f = true
      · rw [if_pos hkey] at hr
        rcases List.mem_cons.mp hr with hr | hr
        · subst hr
          rcases List.mem_append.mp hq with hq | hq
          · exact hrows r0 (List.mem_cons_self r0 rest) q hq
          · have hqp : q = pid := List.mem_singleton.mp hq
            subst hqp
            exact ⟨hpid, featureEquals_trans hf (featureEquals_symm hkey)⟩
        · exact hrows r (List.mem_cons_of_mem r0 hr) q hq
      · rw [if_neg hkey] at hr
        rcases List.mem_cons.mp hr with hr | hr
        · subst hr
          exact hrows r (List.mem_cons_self r rest) q hq
        · exact ih f pid
            (fun r2 hr2 => hrows r2 (List.mem_cons_of_mem r0 hr2))
            hpid hf r hr q hq

theorem poolGet_pool_eq {s s2 : LoaderState} (h : s2.pool = s.pool)
    (q : Nat) : poolGet s2 q = poolGet s q := by
  rw [poolGet, poolGet, h]

theorem pool_provideStep (s : LoaderState) (eid : Nat)
    (reg : Option Feature) (f : Feature) (rest : List Feature) :
    (provideStep s eid reg f rest).pool = s.pool ++
      [{ entry := eid, reg := reg, feats := f :: rest,
         loading := false, loaded := false, failed := false }] := rfl

theorem registry_provideStep (s : LoaderState) (eid : Nat)
    (reg : Option Feature) (f : Feature) (rest : List Feature) :
    (provideStep s eid reg f rest).registry =
      if s.registry.any (fun r => featureEquals r.key f) then
        regAppend s.registry f s.pool.length
      else s.registry ++
        [{ key := f, keyOwner := s.pool.length,
           providers := [s.pool.length] }] := rfl

theorem poolGet_provideStep (s : LoaderState) (eid : Nat)
    (reg : Option Feature) (f : Feature) (rest : List Feature) (q : Nat) :
    poolGet (provideStep s eid reg f rest) q =
      poolGet { s with pool := s.pool ++
        [{ entry := eid, reg := reg, feats := f :: rest,
           loading := false, loaded := false, failed := false }] } q :=
  poolGet_pool_eq (pool_provideStep s eid reg f rest) q

theorem length_pool_provideStep (s : LoaderState) (eid : Nat)
    (reg : Option Feature) (f : Feature) (rest : List Feature) :
    (provideStep s eid reg f rest).pool.length = s.pool.length + 1 := by
  rw [pool_provideStep]
  simp

theorem descr_provideStep_lt {s : LoaderState} {eid : Nat}
    {reg : Option Feature} {f : Feature} {rest : List Feature} {q : Nat}
    (h : q < s.pool.length) :
    descrOf (provideStep s eid reg f rest) q = descrOf s q := by
  rw [descrOf, descrOf, poolGet_provideStep, poolGet_append_lt h]

theorem descr_provideStep_self (s : LoaderState) (eid : Nat)
    (reg : Option Feature) (f : Feature) (rest : List Feature) :
    descrOf (provideStep s eid reg f rest) s.pool.length = f := by
  rw [descrOf, poolGet_provideStep, poolGet_append_self]
  rfl

theorem depsat_provideStep {s : LoaderState} {eid : Nat}
    {reg : Option Feature} {f : Feature} {rest : List Feature}
    (hd : DepSat s) : DepSat (provideStep s eid reg f rest) :=
  depsat_of_pool_eq (pool_provideStep s eid reg f rest)
    (depsat_append rfl hd)

theorem wfreg_provideStep {s : LoaderState} {eid : Nat}
    {reg : Option Feature} {f : Feature} {rest : List Feature}
    (hw : WFreg s) : WFreg (provideStep s eid reg f rest) := by
  intro r hr q hq
  rw [registry_provideStep] at hr
  have hwbase : ∀ r2 ∈ s.registry, ∀ q2 ∈ r2.providers,
      q2 < (provideStep s eid reg f rest).pool.length ∧
        featureEquals (descrOf (provideStep s eid reg f rest) q2) r2.key =
          true := by
    intro r2 hr2 q2 hq2
    obtain ⟨hlt, heq⟩ := hw r2 hr2 q2 hq2
    refine ⟨?_, ?_⟩
    · rw [length_pool_provideStep]; omega
    · rw [descr_provideStep_lt hlt]; exact heq
  have hpidlt : s.pool.length <
      (provideStep s eid reg f rest).pool.length := by
    rw [length_pool_provideStep]; omega
  have hpidf : featureEquals
      (descrOf (provideStep s eid reg f rest) s.pool.length) f = true := by
    rw [descr_provideStep_self]; exact featureEquals_refl f
  by_cases hrow : s.registry.any (fun r2 => featureEquals r2.key f) = true
  · rw [if_pos hrow] at hr
    exact regAppend_wf s.registry f s.pool.length hwbase hpidlt hpidf
      r hr q hq
  · rw [if_neg hrow] at hr
    rcases List.mem_append.mp hr with hr2 | hr2
    · exact hwbase r hr2 q hq
    · have hre := List.mem_singleton.mp hr2
      subst hre
      have hqe : q = s.pool.length := List.mem_singleton.mp hq
      subst hqe
      exact ⟨hpidlt, hpidf⟩

/-- The registration walk preserves dependency satisfaction (fresh
provided features are unloaded). -/
theorem depsat_registerGo : ∀ (block : List Feature) (reg : Option Feature)
    (eid : Nat) (s : LoaderState), DepSat s →
    DepSat (registerGo eid reg block s) := by
  intro block
  induction block with
  | nil => intro reg eid s hd; exact hd
  | cons f rest ih =>
      intro reg eid s hd
      rw [registerGo]
      cases hk : f.kind with
      | PROVIDE => exact ih reg eid _ (depsat_provideStep hd)
      | REGISTER => exact ih (some f) eid s hd
      | CALLBACK => exact ih (some f) eid s hd
      | DEPENDS => exact ih reg eid s hd
      | SDEPEND => exact ih reg eid s hd

/-- The registration walk preserves registry consistency. -/
theorem wfreg_registerGo : ∀ (block : List Feature) (reg : Option Feature)
    (eid : Nat) (s : LoaderState), WFreg s →
    WFreg (registerGo eid reg block s) := by
  intro block
  induction block with
  | nil => intro reg eid s hw; exact hw
  | cons f rest ih =>
      intro reg eid s hw
      rw [registerGo]
      cases hk : f.kind with
      | PROVIDE => exact ih reg eid _ (wfreg_provideStep hw)
      | REGISTER => exact ih (some f) eid s hw
      | CALLBACK => exact ih (some f) eid s hw
      | DEPENDS => exact ih reg eid s hw
      | SDEPEND => exact ih reg eid s hw

theorem depsat_constructPhase : ∀ (toks : List String) (env : Env)
    (s : LoaderState), DepSat s → DepSat (constructPhase env toks s).1 := by
  intro toks
  induction toks with
  | nil => intro env s hd; exact hd
  | cons tok rest ih =>
      intro env s hd
      rw [constructPhase]
      by_cases hpl : pluginLoaded s (parseToken tok).1 = true
      · simp only [hpl, if_true]
        exact ih env s hd
      · simp only [hpl, if_false, Bool.false_eq_true]
        cases henv : env (parseToken tok).1 with
        | some pd =>
            refine ih env _ ?_
            rw [registerFeatures]
            by_cases hi : pd.hasFeaturesIntf = true
            · simp only [hi, if_true]
              exact depsat_registerGo pd.block none s.nextEid _
                (depsat_of_pool_eq rfl hd)
            · simp only [hi, if_false, Bool.false_eq_true]
              exact depsat_of_pool_eq rfl hd
        | none =>
            by_cases hcr : (parseToken tok).2 = true
            · simp only [hcr, if_true]
              exact hd
            · simp only [hcr, if_false, Bool.false_eq_true]
              exact ih env s hd

theorem wfreg_constructPhase : ∀ (toks : List String) (env : Env)
    (s : LoaderState), WFreg s → WFreg (constructPhase env toks s).1 := by
  intro toks
  induction toks with
  | nil => intro env s hw; exact hw
  | cons tok rest ih =>
      intro env s hw
      rw [constructPhase]
      by_cases hpl : pluginLoaded s (parseToken tok).1 = true
      · simp only [hpl, if_true]
        exact ih env s hw
      · simp only [hpl, if_false, Bool.false_eq_true]
        cases henv : env (parseToken tok).1 with
        | some pd =>
            refine ih env _ ?_
            rw [registerFeatures]
            by_cases hi : pd.hasFeaturesIntf = true
            · simp only [hi, if_true]
              exact wfreg_registerGo pd.block none s.nextEid _
                (wfreg_of_eq rfl rfl hw)
            · simp only [hi, if_false, Bool.false_eq_true]
              exact wfreg_of_eq rfl rfl hw
        | none =>
            by_cases hcr : (parseToken tok).2 = true
            · simp only [hcr, if_true]
              exact hw
            · simp only [hcr, if_false, Bool.false_eq_true]
              exact ih env s hw

theorem pool_unregisterFeature (s : LoaderState) (pid : Nat) :
    (unregisterFeature s pid).pool = s.pool := rfl

theorem pool_unregisterFeaturesList : ∀ (fids : List Nat)
    (s : LoaderState), (unregisterFeaturesList s fids).pool = s.pool := by
  intro fids
  induction fids with
  | nil => intro s; rfl
  | cons pid rest ih =>
      intro s
      rw [unregisterFeaturesList] at *
      rw [List.foldl_cons]
      exact (ih (unregisterFeature s pid)).trans rfl

theorem pool_purgeGo : ∀ (l : List PluginEntry) (s : LoaderState),
    (purgeGo l s).pool = s.pool := by
  intro l
  induction l with
  | nil => intro s; rfl
  | cons e rest ih =>
      intro s
      rw [purgeGo]
      split
      · exact (ih _).trans
          ((pool_unregisterFeaturesList e.features _).trans rfl)
      · exact ih s

theorem depsat_purgePlugins {s : LoaderState} (hd : DepSat s) :
    DepSat (purgePlugins s) :=
  depsat_of_pool_eq (pool_purgeGo s.plugins s) hd

theorem depsat_loadFeatures {fuel : Nat} {s : LoaderState} (hw : WFreg s)
    (hd : DepSat s) : DepSat (loadFeatures fuel s) := by
  rw [loadFeatures]
  generalize (s.plugins.map (fun e => e.features)).flatten = pids
  induction pids generalizing s with
  | nil => exact hd
  | cons pid rest ih =>
      rw [List.foldl_cons]
      exact ih (wfreg_of_mono (mono_exec fuel (Task.provided pid 0) s) hw)
        (depsat_exec fuel (Task.provided pid 0) s hw hd)

theorem wfreg_loadFeatures {fuel : Nat} {s : LoaderState} (hw : WFreg s) :
    WFreg (loadFeatures fuel s) := by
  rw [loadFeatures]
  generalize (s.plugins.map (fun e => e.features)).flatten = pids
  induction pids generalizing s with
  | nil => exact hw
  | cons pid rest ih =>
      rw [List.foldl_cons]
      exact ih (wfreg_of_mono (mono_exec fuel (Task.provided pid 0) s) hw)

theorem depsat_initState : DepSat initState := by
  intro pid hl
  rw [poolGet_oor (Nat.zero_le pid)] at hl
  simp [default, Inhabited.default] at hl

theorem wfreg_initState : WFreg initState := by
  intro r hr
  exact absurd hr (List.not_mem_nil r)

/-! ### Claim C1 -/

/-- C1: after load(list) returns, for every provided feature whose loaded
flag is true, every hard (DEPENDS) dependency descriptor in its dependency
suffix is satisfied by some provided feature with loaded true whose
PROVIDE descriptor matches it (DepSat); this invariant is preserved from
any state whose registry is consistent and that already satisfies it. -/
theorem load_preserves_depSat (fuel : Nat) (env : Env) (list : String)
    (s : LoaderState) (hw : WFreg s) (hd : DepSat s) :
    DepSat (load fuel env s list).1 := by
  rw [load, loadPlugins]
  have hd1 : DepSat (constructPhase env (tokenize list) s).1 :=
    depsat_constructPhase (tokenize list) env s hd
  have hw1 : WFreg (constructPhase env (tokenize list) s).1 :=
    wfreg_constructPhase (tokenize list) env s hw
  by_cases hc : (constructPhase env (tokenize list) s).2 = true
  · rw [if_pos hc]
    exact hd1
  · rw [if_neg hc]
    have hd2 : DepSat
        (loadFeatures fuel (constructPhase env (tokenize list) s).1) :=
      depsat_loadFeatures hw1 hd1
    by_cases hcr : decide (0 < (loadFeatures fuel
        (constructPhase env (tokenize list) s).1).stats.critical) = true
    · rw [if_pos hcr]
      exact depsat_purgePlugins hd2
    · rw [if_neg hcr]
      exact depsat_of_pool_eq rfl (depsat_purgePlugins hd2)

/-- Witness for C1 at a concrete fresh loader. -/
theorem load_preserves_depSat_witness :
    DepSat (load 5 (fun _ => none) initState ("m")).1 :=
  load_preserves_depSat 5 (fun _ => none) ("m") initState
    wfreg_initState depsat_initState

/-! ### Statistics bookkeeping lemmas -/

theorem stats_unregisterFeature (s : LoaderState) (pid : Nat) :
    (unregisterFeature s pid).stats = s.stats := rfl

theorem stats_unregisterFeaturesList : ∀ (fids : List Nat)
    (s : LoaderState), (unregisterFeaturesList s fids).stats = s.stats := by
  intro fids
  induction fids with
  | nil => intro s; rfl
  | cons pid rest ih =>
      intro s
      rw [unregisterFeaturesList, List.foldl_cons]
      exact ih (unregisterFeature s pid)

theorem stats_purgeGo : ∀ (l : List PluginEntry) (s : LoaderState),
    (purgeGo l s).stats = s.stats := by
  intro l
  induction l with
  | nil => intro s; rfl
  | cons e rest ih =>
      intro s
      rw [purgeGo]
      split
      · exact (ih _).trans ((stats_unregisterFeaturesList e.features _).trans
          rfl)
      · exact ih s

theorem stats_purgePlugins (s : LoaderState) :
    (purgePlugins s).stats = s.stats :=
  stats_purgeGo s.plugins s

theorem stats_registerGo : ∀ (block : List Feature) (reg : Option Feature)
    (eid : Nat) (s : LoaderState),
    (registerGo eid reg block s).stats = s.stats := by
  intro block
  induction block with
  | nil => intro reg eid s; rfl
  | cons f rest ih =>
      intro reg eid s
      rw [registerGo]
      cases f.kind with
      | PROVIDE => exact (ih reg eid _).trans rfl
      | REGISTER => exact ih (some f) eid s
      | CALLBACK => exact ih (some f) eid s
      | DEPENDS => exact ih reg eid s
      | SDEPEND => exact ih reg eid s

theorem stats_constructPhase : ∀ (toks : List String) (env : Env)
    (s : LoaderState), (constructPhase env toks s).1.stats = s.stats := by
  intro toks
  induction toks with
  | nil => intro env s; rfl
  | cons tok rest ih =>
      intro env s
      rw [constructPhase]
      by_cases hpl : pluginLoaded s (parseToken tok).1 = true
      · rw [if_pos hpl]
        exact ih env s
      · rw [if_neg hpl]
        cases henv : env (parseToken tok).1 with
        | some pd =>
            refine (ih env _).trans ?_
            rw [registerFeatures]
            by_cases hi : pd.hasFeaturesIntf = true
            · rw [if_pos hi]
              exact stats_registerGo pd.block none s.nextEid _
            · rw [if_neg hi]
        | none =>
            by_cases hcr : (parseToken tok).2 = true
            · rw [if_pos hcr]
            · rw [if_neg hcr]
              exact ih env s

theorem mono_loadFeatures (fuel : Nat) (s : LoaderState) :
    Mono s (loadFeatures fuel s) := by
  rw [loadFeatures]
  generalize (s.plugins.map (fun e => e.features)).flatten = pids
  induction pids generalizing s with
  | nil => exact monoRefl s
  | cons pid rest ih =>
      rw [List.foldl_cons]
      exact monoTrans (mono_exec fuel (Task.provided pid 0) s) (ih _)

/-! ### Claim C2 -/

/-- C2: load(list) returns true iff no critical plugin failed at module
construction and stats.critical is zero after dependency resolution (the
final statistics coincide with the post-resolution ones, since purge and
the string rebuild do not touch them). -/
theorem load_true_iff (fuel : Nat) (env : Env) (s : LoaderState)
    (list : String) : (load fuel env s list).2 = true ↔
      ((constructPhase env (tokenize list) s).2 = false ∧
        (load fuel env s list).1.stats.critical = 0) := by
  rw [load, loadPlugins]
  by_cases hc : (constructPhase env (tokenize list) s).2 = true
  · rw [if_pos hc]
    simp [hc]
  · rw [if_neg hc]
    have hc2 : (constructPhase env (tokenize list) s).2 = false := by
      simpa using hc
    by_cases hcr : decide (0 < (loadFeatures fuel
        (constructPhase env (tokenize list) s).1).stats.critical) = true
    · rw [if_pos hcr]
      rw [decide_eq_true_iff] at hcr
      simp only [hc2, true_and]
      constructor
      · intro h; cases h
      · intro h
        rw [stats_purgePlugins] at h
        omega
    · rw [if_neg hcr]
      rw [decide_eq_true_iff] at hcr
      simp only [hc2, true_and]
      constructor
      · intro _
        show (purgePlugins (loadFeatures fuel
          (constructPhase env (tokenize list) s).1)).stats.critical = 0
        rw [stats_purgePlugins]
        omega
      · intro _; trivial

/-! ### Claim C10 -/

/-- C10: load never resets the statistics counters: all three only grow
across a load call; consequently a load starting with stats.critical
positive returns false even if everything in its list succeeds, and only
unload zeroes the counters. -/
theorem load_never_resets_stats (fuel : Nat) (env : Env) (s : LoaderState)
    (list : String) (h : 0 < s.stats.critical) :
    (load fuel env s list).2 = false ∧
    s.stats.failed ≤ (load fuel env s list).1.stats.failed ∧
    s.stats.depends ≤ (load fuel env s list).1.stats.depends ∧
    s.stats.critical ≤ (load fuel env s list).1.stats.critical ∧
    (unload s).stats = ⟨0, 0, 0⟩ := by
  have hcst : (constructPhase env (tokenize list) s).1.stats = s.stats :=
    stats_constructPhase (tokenize list) env s
  rw [load, loadPlugins]
  by_cases hc : (constructPhase env (tokenize list) s).2 = true
  · rw [if_pos hc]
    rw [hcst]
    exact ⟨rfl, Nat.le_refl _, Nat.le_refl _, Nat.le_refl _, rfl⟩
  · rw [if_neg hc]
    have hm := mono_loadFeatures fuel (constructPhase env (tokenize list) s).1
    have hcrit : 0 < (loadFeatures fuel
        (constructPhase env (tokenize list) s).1).stats.critical := by
      have := hm.statsCriticalLe
      rw [hcst] at this
      omega
    have hcr : decide (0 < (loadFeatures fuel
        (constructPhase env (tokenize list) s).1).stats.critical) = true :=
      decide_eq_true hcrit
    rw [if_pos hcr]
    have hps := stats_purgePlugins (loadFeatures fuel
      (constructPhase env (tokenize list) s).1)
    have hff := hm.statsFailedLe
    have hdd := hm.statsDependsLe
    have hcc := hm.statsCriticalLe
    rw [hcst] at hff hdd hcc
    refine ⟨rfl, ?_, ?_, ?_, rfl⟩ <;> rw [hps] <;> omega

/-- Witness for C10 at a concrete state carrying a critical failure. -/
theorem load_never_resets_stats_witness :
    (load 3 (fun _ => none)
      { initState with stats := ⟨1, 1, 1⟩ } ("")).2 = false :=
  (load_never_resets_stats 3 (fun _ => none)
    { initState with stats := ⟨1, 1, 1⟩ } ("") (by decide)).1

/-! ### Claim C3 -/

/-- Hard-cycle scenario: plugin M provides capability 1 with a hard
dependency on capability 2, plugin N provides capability 2 with a hard
dependency on capability 1; both load callbacks would succeed. -/
def envHardCycle : Env := fun n =>
  if n == ("M") then
    some ⟨true, [⟨FeatureKind.PROVIDE, 1, some 0⟩,
      ⟨FeatureKind.DEPENDS, 2, some 0⟩], fun _ => true⟩
  else if n == ("N") then
    some ⟨true, [⟨FeatureKind.PROVIDE, 2, some 0⟩,
      ⟨FeatureKind.DEPENDS, 1, some 0⟩], fun _ => true⟩
  else none

/-- C3: loading the hard cycle "M N" into a fresh loader loads neither
feature (the two provided features, ids 0 and 1, are failed, and the
activation stack stays empty), leaves stats.failed at 2 and stats.depends
at 2, and load still returns true since no plugin is critical. -/
theorem hard_cycle_outcome :
    (load 50 envHardCycle initState ("M N")).2 = true ∧
    (load 50 envHardCycle initState ("M N")).1.stats.failed = 2 ∧
    (load 50 envHardCycle initState ("M N")).1.stats.depends = 2 ∧
    (poolGet (load 50 envHardCycle initState ("M N")).1 0).loaded = false ∧
    (poolGet (load 50 envHardCycle initState ("M N")).1 1).loaded = false ∧
    (poolGet (load 50 envHardCycle initState ("M N")).1 0).failed = true ∧
    (poolGet (load 50 envHardCycle initState ("M N")).1 1).failed = true ∧
    (load 50 envHardCycle initState ("M N")).1.loadedStack = [] := by
  decide

/-! ### Claim C4 -/

/-- Soft-cycle scenario: as envHardCycle but with SDEPEND dependencies. -/
def envSoftCycle : Env := fun n =>
  if n == ("M") then
    some ⟨true, [⟨FeatureKind.PROVIDE, 1, some 0⟩,
      ⟨FeatureKind.SDEPEND, 2, some 0⟩], fun _ => true⟩
  else if n == ("N") then
    some ⟨true, [⟨FeatureKind.PROVIDE, 2, some 0⟩,
      ⟨FeatureKind.SDEPEND, 1, some 0⟩], fun _ => true⟩
  else none

/-- C4: an unsatisfied SDEPEND never prevents a feature's load callback
from being invoked: load_dependencies can only return false when a
descriptor of kind DEPENDS occurs in the walked slice (given fuel enough
for its length, one unit per descriptor), and in the concrete soft-only
cycle both features load with no failure counter incremented. -/
theorem sdepend_never_blocks :
    (∀ (ds : List Feature) (fuel : Nat) (s : LoaderState) (level : Nat),
      ds.length + 1 ≤ fuel →
      (loadDependencies fuel s ds level).2 = false →
      ∃ d ∈ ds, d.kind = FeatureKind.DEPENDS) ∧
    ((load 50 envSoftCycle initState ("M N")).2 = true ∧
     (poolGet (load 50 envSoftCycle initState ("M N")).1 0).loaded = true ∧
     (poolGet (load 50 envSoftCycle initState ("M N")).1 1).loaded = true ∧
     (load 50 envSoftCycle initState ("M N")).1.stats = ⟨0, 0, 0⟩) := by
  constructor
  · intro ds
    induction ds with
    | nil =>
        intro fuel s level hfuel hres
        cases fuel with
        | zero => omega
        | succ fuel => simp [loadDependencies, exec] at hres
    | cons d0 rest ih =>
        intro fuel s level hfuel hres
        cases fuel with
        | zero => omega
        | succ fuel =>
            have hfuel2 : rest.length + 1 ≤ fuel := by
              simp only [List.length_cons] at hfuel
              omega
            rw [loadDependencies] at hres
            simp only [exec] at hres
            by_cases hk : (d0.kind == FeatureKind.DEPENDS ||
                d0.kind == FeatureKind.SDEPEND) = true
            · rw [if_pos hk] at hres
              by_cases hfc : findCompatible (exec fuel
                  (Task.dloop (s.pool.length + 1) d0 level) s).1 d0 = true
              · rw [if_pos hfc] at hres
                have hres2 : (loadDependencies fuel
                    (exec fuel (Task.dloop (s.pool.length + 1) d0 level)
                      s).1 rest level).2 = false := hres
                obtain ⟨d, hd, hdk⟩ := ih fuel _ level hfuel2 hres2
                exact ⟨d, List.mem_cons_of_mem d0 hd, hdk⟩
              · rw [if_neg hfc] at hres
                by_cases hsd : (d0.kind == FeatureKind.SDEPEND) = true
                · rw [if_pos hsd] at hres
                  have hres2 : (loadDependencies fuel
                      (exec fuel (Task.dloop (s.pool.length + 1) d0 level)
                        s).1 rest level).2 = false := hres
                  obtain ⟨d, hd, hdk⟩ := ih fuel _ level hfuel2 hres2
                  exact ⟨d, List.mem_cons_of_mem d0 hd, hdk⟩
                · refine ⟨d0, List.mem_cons_self d0 rest, ?_⟩
                  rw [Bool.or_eq_true] at hk
                  rcases hk with hk | hk
                  · exact of_decide_eq_true hk
                  · exact absurd hk hsd
            · rw [if_neg hk] at hres
              cases hres
  · decide

/-- Witness for the universal part of C4: a hard dependency on an empty
registry makes load_dependencies fail, and that descriptor is indeed of
kind DEPENDS. -/
theorem sdepend_never_blocks_witness :
    ∃ d ∈ [(⟨FeatureKind.DEPENDS, 7, none⟩ : Feature)],
      d.kind = FeatureKind.DEPENDS :=
  sdepend_never_blocks.1 [⟨FeatureKind.DEPENDS, 7, none⟩] 2 initState 0
    (by decide) (by decide)

/-! ### Claim C5 -/

/-- A plugin whose single feature has no dependencies and whose load
callback returns false. -/
def envCallbackFail : Env := fun n =>
  if n == ("m") then
    some ⟨true, [⟨FeatureKind.PROVIDE, 1, some 0⟩], fun _ => false⟩
  else none

/-- Counterexample to C5 as stated: when the load callback of a
dependency-free feature returns false, the feature is marked failed and
stats.failed is incremented, but stats.depends stays 0 - not the same
accounting as an unmet hard dependency, which would also increment
stats.depends. -/
theorem callback_false_keeps_depends :
    (poolGet (load 10 envCallbackFail initState ("m")).1 0).failed = true ∧
    (load 10 envCallbackFail initState ("m")).1.stats.failed = 1 ∧
    (load 10 envCallbackFail initState ("m")).1.stats.depends = 0 := by
  decide

/-- C5 (amended): when a feature's load callback returns false, the loader
marks the feature failed, increments stats.failed, and increments
stats.critical when the owning module is critical, but - unlike the
unmet-hard-dependency path - it does not increment stats.depends. -/
theorem callback_false_accounting (fuel : Nat) (s : LoaderState)
    (pid level : Nat)
    (hdeps : (loadDependencies fuel s (poolGet s pid).feats.tail level).2 =
      true)
    (hcb : loadOkOf
      (loadDependencies fuel s (poolGet s pid).feats.tail level).1 pid =
        false) :
    (exec (fuel + 1) (Task.feature pid level) s).1.stats.depends =
      (loadDependencies fuel s (poolGet s pid).feats.tail
        level).1.stats.depends ∧
    (exec (fuel + 1) (Task.feature pid level) s).1.stats.failed =
      (loadDependencies fuel s (poolGet s pid).feats.tail
        level).1.stats.failed + 1 ∧
    (exec (fuel + 1) (Task.feature pid level) s).1.stats.critical =
      (loadDependencies fuel s (poolGet s pid).feats.tail
        level).1.stats.critical +
      (if criticalOf (loadDependencies fuel s (poolGet s pid).feats.tail
        level).1 pid then 1 else 0) ∧
    (pid < s.pool.length →
      (poolGet (exec (fuel + 1) (Task.feature pid level) s).1 pid).failed =
        true) := by
  have hdeps2 : (exec fuel
      (Task.deps (poolGet s pid).feats.tail level) s).2 = true := hdeps
  have hcb2 : loadOkOf
      (exec fuel (Task.deps (poolGet s pid).feats.tail level) s).1 pid =
        false := hcb
  have hres : (exec (fuel + 1) (Task.feature pid level) s).1 =
      failAccounting
        (exec fuel (Task.deps (poolGet s pid).feats.tail level) s).1 pid
        false := by
    simp only [exec, hdeps2, hcb2, if_true, if_false, Bool.false_eq_true]
  refine ⟨?_, ?_, ?_, ?_⟩
  · rw [hres]; simp only [failAccounting]; rfl
  · rw [hres]; simp only [failAccounting]; rfl
  · rw [hres]; simp only [failAccounting]; rfl
  · intro hlt
    rw [hres]
    have hlt1 : pid < (exec fuel
        (Task.deps (poolGet s pid).feats.tail level) s).1.pool.length := by
      rw [(mono_exec fuel (Task.deps (poolGet s pid).feats.tail level)
        s).lenEq]
      exact hlt
    show (poolGet (setFailed _ pid) pid).failed = true
    rw [setFailed, poolGet_modify_self hlt1]

/-- Witness for the amended C5 on the concrete callback-failure plugin. -/
theorem callback_false_accounting_witness :
    (exec 4 (Task.feature 0 1)
      (constructPhase envCallbackFail [("m")] initState).1).1.stats.failed =
      (loadDependencies 3
        (constructPhase envCallbackFail [("m")] initState).1
        (poolGet (constructPhase envCallbackFail [("m")] initState).1
          0).feats.tail 1).1.stats.failed + 1 :=
  (callback_false_accounting 3
    (constructPhase envCallbackFail [("m")] initState).1 0 1
    (by decide) (by decide)).2.1

/-! ### Purge lemmas -/

instance : Inhabited PluginEntry :=
  ⟨⟨0, ("") , false, false, fun _ => false, []⟩⟩

theorem plugins_unregisterFeature (s : LoaderState) (pid : Nat) :
    (unregisterFeature s pid).plugins = s.plugins := rfl

theorem plugins_unregisterFeaturesList : ∀ (fids : List Nat)
    (s : LoaderState),
    (unregisterFeaturesList s fids).plugins = s.plugins := by
  intro fids
  induction fids with
  | nil => intro s; rfl
  | cons pid rest ih =>
      intro s
      rw [unregisterFeaturesList, List.foldl_cons]
      exact ih (unregisterFeature s pid)

theorem plugins_purgeGo_subset : ∀ (l : List PluginEntry)
    (s : LoaderState) (e : PluginEntry),
    e ∈ (purgeGo l s).plugins → e ∈ s.plugins := by
  intro l
  induction l with
  | nil => intro s e he; exact he
  | cons e1 rest ih =>
      intro s e he
      rw [purgeGo] at he
      by_cases hc : (e1.hasFeaturesIntf &&
          !(e1.features.any (fun pid => (poolGet s pid).loaded))) = true
      · rw [if_pos hc] at he
        have he2 := ih _ e he
        rw [plugins_unregisterFeaturesList] at he2
        exact List.mem_of_mem_filter he2
      · rw [if_neg hc] at he
        exact ih s e he

/-- An entry that the features interface does not support is never removed
by the purge walk, provided no removed entry shares its eid. -/
theorem purgeGo_keeps : ∀ (l : List PluginEntry) (s : LoaderState)
    (e : PluginEntry),
    (∀ e1 ∈ l, e1.hasFeaturesIntf = true → e1.eid ≠ e.eid) →
    e ∈ s.plugins → e ∈ (purgeGo l s).plugins := by
  intro l
  induction l with
  | nil => intro s e _ he; exact he
  | cons e1 rest ih =>
      intro s e hne he
      rw [purgeGo]
      by_cases hc : (e1.hasFeaturesIntf &&
          !(e1.features.any (fun pid => (poolGet s pid).loaded))) = true
      · rw [if_pos hc]
        have hint : e1.hasFeaturesIntf = true := by
          simp only [Bool.and_eq_true] at hc
          exact hc.1
        have hee : e1.eid ≠ e.eid :=
          hne e1 (List.mem_cons_self e1 rest) hint
        refine ih _ e (fun e2 he2 hi2 =>
          hne e2 (List.mem_cons_of_mem e1 he2) hi2) ?_
        rw [plugins_unregisterFeaturesList]
        refine List.mem_filter.mpr ⟨he, ?_⟩
        simp only [decide_eq_true_eq]
        exact fun hcon => hee hcon.symm
      · rw [if_neg hc]
        exact ih s e (fun e2 he2 hi2 =>
          hne e2 (List.mem_cons_of_mem e1 he2) hi2) he

/-! ### Claim C9 -/

/-- C9: a module entry whose module object does not implement the features
interface always survives purge_plugins (its eid and name remain in the
plugin list, given the entries carry distinct eids), and the
loaded-plugins string rebuilt by a successful load renders exactly the
names of the surviving entries. -/
theorem featureless_entry_survives_purge :
    (∀ (s : LoaderState) (e : PluginEntry), e ∈ s.plugins →
      e.hasFeaturesIntf = false → (s.plugins.map (fun x => x.eid)).Nodup →
      e.eid ∈ (purgePlugins s).plugins.map (fun x => x.eid) ∧
      e.name ∈ (purgePlugins s).plugins.map (fun x => x.name)) ∧
    (∀ (fuel : Nat) (env : Env) (s : LoaderState) (toks : List String),
      (loadPlugins fuel env s toks).2 = true →
      (loadPlugins fuel env s toks).1.loadedPlugins =
        some (String.intercalate (" ")
          ((loadPlugins fuel env s toks).1.plugins.map
            (fun e => e.name)))) := by
  constructor
  · intro s e he hint hnd
    have hkeep : e ∈ (purgePlugins s).plugins := by
      refine purgeGo_keeps s.plugins s e ?_ he
      intro e1 he1 hi1 heq
      have : e1 = e := List.inj_on_of_nodup_map hnd he1 he heq
      rw [this] at hi1
      rw [hint] at hi1
      cases hi1
    exact ⟨List.mem_map_of_mem (fun x => x.eid) hkeep,
      List.mem_map_of_mem (fun x => x.name) hkeep⟩
  · intro fuel env s toks hres
    rw [loadPlugins] at hres ⊢
    by_cases hc : (constructPhase env toks s).2 = true
    · rw [if_pos hc] at hres
      cases hres
    · rw [if_neg hc] at hres ⊢
      by_cases hcr : decide (0 < (loadFeatures fuel
          (constructPhase env toks s).1).stats.critical) = true
      · rw [if_pos hcr] at hres
        cases hres
      · rw [if_neg hcr]
        rfl

/-- A loader holding one synthetic entry without the features
interface. -/
def loaderWithStub : LoaderState :=
  { initState with
    plugins := [⟨0, ("stub"), false, false, fun _ => true, []⟩] }

/-- Witness for C9: the stub entry survives purge and an empty load
rebuilds the loaded-plugins string from the surviving names. -/
theorem featureless_entry_survives_purge_witness :
    ((0 : Nat) ∈ (purgePlugins loaderWithStub).plugins.map
      (fun x => x.eid)) ∧
    (loadPlugins 3 (fun _ => none) initState []).1.loadedPlugins =
      some (String.intercalate (" ")
        ((loadPlugins 3 (fun _ => none) initState []).1.plugins.map
          (fun e => e.name))) :=
  ⟨(featureless_entry_survives_purge.1 loaderWithStub
      ⟨0, ("stub"), false, false, fun _ => true, []⟩
      (List.mem_singleton_self _) rfl (by decide)).1,
   featureless_entry_survives_purge.2 3 (fun _ => none) initState []
     (by decide)⟩

/-! ### Claim C6 -/

/-- A critical plugin whose module object does not implement the features
interface (accepted but deprecated). -/
def envCriticalStub : Env := fun n =>
  if n == ("c") then some ⟨false, [], fun _ => true⟩ else none

/-- Counterexample to C6 as stated: a critical module entry none of whose
provided features is loaded (here it has no provided features at all, so
vacuously none is loaded) does not make load return false - the entry
survives with an empty feature list and load returns true. -/
theorem critical_featureless_load_true :
    (load 10 envCriticalStub initState ("c!")).2 = true ∧
    (load 10 envCriticalStub initState ("c!")).1.plugins.length = 1 ∧
    ((load 10 envCriticalStub initState ("c!")).1.plugins.getD 0
      default).critical = true ∧
    ((load 10 envCriticalStub initState ("c!")).1.plugins.getD 0
      default).features = [] := by
  decide

/-- All provided features are unexamined and not mid-load. -/
def AllFresh (s : LoaderState) : Prop :=
  ∀ pid, (poolGet s pid).loading = false ∧
    (poolGet s pid).loaded = false ∧ (poolGet s pid).failed = false

/-- The feature ids held by each entry are live pool indices whose
back-pointer names that entry. -/
def EntryPids (s : LoaderState) : Prop :=
  ∀ e ∈ s.plugins, ∀ pid ∈ e.features,
    pid < s.pool.length ∧ (poolGet s pid).entry = e.eid

/-- Every entry identifier is below the allocation counter. -/
def EidsBound (s : LoaderState) : Prop :=
  ∀ e ∈ s.plugins, e.eid < s.nextEid

/-- Entry identifiers are pairwise distinct. -/
def EidsNodup (s : LoaderState) : Prop :=
  (s.plugins.map (fun e => e.eid)).Nodup

/-- The state shape produced by the construction phase from a fresh
loader. -/
def ConstructWF (s : LoaderState) : Prop :=
  AllFresh s ∧ EntryPids s ∧ EidsBound s ∧ EidsNodup s

theorem map_eid_entryAddFeature (s : LoaderState) (eid pid : Nat) :
    (entryAddFeature s eid pid).plugins.map (fun e => e.eid) =
      s.plugins.map (fun e => e.eid) := by
  rw [entryAddFeature, List.map_map]
  refine List.map_eq_map_iff.mpr ?_
  intro e _
  show (if e.eid == eid then _ else e).eid = e.eid
  by_cases h : (e.eid == eid) = true
  · rw [if_pos h]
  · rw [if_neg h]

theorem plugins_registry_provideStep_nextEid (s : LoaderState) (eid : Nat)
    (reg : Option Feature) (f : Feature) (rest : List Feature) :
    (provideStep s eid reg f rest).nextEid = s.nextEid := rfl

theorem constructWF_provideStep {s : LoaderState} {eid : Nat}
    {reg : Option Feature} {f : Feature} {rest : List Feature}
    (h : ConstructWF s) : ConstructWF (provideStep s eid reg f rest) := by
  obtain ⟨hfresh, hpids, hbound, hnd⟩ := h
  refine ⟨?_, ?_, ?_, ?_⟩
  · intro pid
    rw [poolGet_provideStep]
    rcases Nat.lt_trichotomy pid s.pool.length with hlt | hlt | hlt
    · rw [poolGet_append_lt hlt]
      exact hfresh pid
    · rw [hlt, poolGet_append_self]
      exact ⟨rfl, rfl, rfl⟩
    · rw [poolGet_append_gt hlt]
      exact ⟨rfl, rfl, rfl⟩
  · intro e he pid hpid
    have hplugins : (provideStep s eid reg f rest).plugins =
        s.plugins.map (fun e2 =>
          if e2.eid == eid then
            { e2 with features := e2.features ++ [s.pool.length] }
          else e2) := rfl
    rw [hplugins] at he
    obtain ⟨e0, he0, he0e⟩ := List.mem_map.mp he
    by_cases heid : (e0.eid == eid) = true
    · rw [if_pos heid] at he0e
      subst he0e
      simp only at hpid
      rcases List.mem_append.mp hpid with hp | hp
      · obtain ⟨hlt, hent⟩ := hpids e0 he0 pid hp
        refine ⟨?_, ?_⟩
        · rw [length_pool_provideStep]; omega
        · rw [poolGet_provideStep, poolGet_append_lt hlt]
          exact hent
      · have hpe : pid = s.pool.length := List.mem_singleton.mp hp
        subst hpe
        refine ⟨?_, ?_⟩
        · rw [length_pool_provideStep]; omega
        · rw [poolGet_provideStep, poolGet_append_self]
          have heq : e0.eid = eid := by simpa using heid
          exact heq.symm
    · rw [if_neg heid] at he0e
      subst he0e
      obtain ⟨hlt, hent⟩ := hpids e0 he0 pid hpid
      refine ⟨?_, ?_⟩
      · rw [length_pool_provideStep]; omega
      · rw [poolGet_provideStep, poolGet_append_lt hlt]
        exact hent
  · intro e he
    have hplugins : (provideStep s eid reg f rest).plugins =
        s.plugins.map (fun e2 =>
          if e2.eid == eid then
            { e2 with features := e2.features ++ [s.pool.length] }
          else e2) := rfl
    rw [hplugins] at he
    obtain ⟨e0, he0, he0e⟩ := List.mem_map.mp he
    have : e.eid = e0.eid := by
      subst he0e
      by_cases heid : (e0.eid == eid) = true <;> simp [heid]
    rw [plugins_registry_provideStep_nextEid, this]
    exact hbound e0 he0
  · show ((entryAddFeature _ eid s.pool.length).plugins.map
      (fun e => e.eid)).Nodup
    rw [map_eid_entryAddFeature]
    exact hnd

theorem constructWF_registerGo : ∀ (block : List Feature)
    (reg : Option Feature) (eid : Nat) (s : LoaderState),
    ConstructWF s → ConstructWF (registerGo eid reg block s) := by
  intro block
  induction block with
  | nil => intro reg eid s h; exact h
  | cons f rest ih =>
      intro reg eid s h
      rw [registerGo]
      cases f.kind with
      | PROVIDE => exact ih reg eid _ (constructWF_provideStep h)
      | REGISTER => exact ih (some f) eid s h
      | CALLBACK => exact ih (some f) eid s h
      | DEPENDS => exact ih reg eid s h
      | SDEPEND => exact ih reg eid s h

theorem constructWF_constructPhase : ∀ (toks : List String) (env : Env)
    (s : LoaderState), ConstructWF s →
    ConstructWF (constructPhase env toks s).1 := by
  intro toks
  induction toks with
  | nil => intro env s h; exact h
  | cons tok rest ih =>
      intro env s h
      rw [constructPhase]
      by_cases hpl : pluginLoaded s (parseToken tok).1 = true
      · rw [if_pos hpl]
        exact ih env s h
      · rw [if_neg hpl]
        cases henv : env (parseToken tok).1 with
        | some pd =>
            refine ih env _ ?_
            rw [registerFeatures]
            obtain ⟨hfresh, hpids, hbound, hnd⟩ := h
            have happ : ConstructWF { s with
                plugins := s.plugins ++
                  [{ eid := s.nextEid, name := (parseToken tok).1,
                     critical := (parseToken tok).2,
                     hasFeaturesIntf := pd.hasFeaturesIntf,
                     loadOk := pd.loadOk, features := [] }],
                nextEid := s.nextEid + 1 } := by
              refine ⟨hfresh, ?_, ?_, ?_⟩
              · intro e he pid hpid
                rcases List.mem_append.mp he with he2 | he2
                · exact hpids e he2 pid hpid
                · have := List.mem_singleton.mp he2
                  subst this
                  exact absurd hpid (List.not_mem_nil pid)
              · intro e he
                rcases List.mem_append.mp he with he2 | he2
                · have := hbound e he2
                  simp only
                  omega
                · have := List.mem_singleton.mp he2
                  subst this
                  show s.nextEid < s.nextEid + 1
                  omega
              · simp only [EidsNodup]
                rw [List.map_append]
                rw [List.nodup_append]
                refine ⟨hnd, List.nodup_singleton _, ?_⟩
                intro x hx hxa
                rw [List.map_singleton, List.mem_singleton] at hxa
                subst hxa
                obtain ⟨e0, he0, he0e⟩ := List.mem_map.mp hx
                have hb := hbound e0 he0
                have he0e2 : e0.eid = s.nextEid := he0e
                omega
            by_cases hi : pd.hasFeaturesIntf = true
            · rw [if_pos hi]
              exact constructWF_registerGo pd.block none s.nextEid _ happ
            · rw [if_neg hi]
              exact happ
        | none =>
            by_cases hcr : (parseToken tok).2 = true
            · rw [if_pos hcr]
              exact h
            · rw [if_neg hcr]
              exact ih env s h

theorem constructWF_initState : ConstructWF initState := by
  refine ⟨?_, ?_, ?_, ?_⟩
  · intro pid
    rw [poolGet_oor (Nat.zero_le pid)]
    exact ⟨rfl, rfl, rfl⟩
  · intro e he
    exact absurd he (List.not_mem_nil e)
  · intro e he
    exact absurd he (List.not_mem_nil e)
  · exact List.nodup_nil

/-- A provided feature that has been settled: loaded or failed. -/
def Terminal (s : LoaderState) (pid : Nat) : Prop :=
  (poolGet s pid).loaded = true ∨ (poolGet s pid).failed = true

theorem terminal_of_mono {s s2 : LoaderState} {pid : Nat}
    (hm : Mono s s2) (h : Terminal s pid) : Terminal s2 pid :=
  h.elim (fun h2 => Or.inl (hm.loadedMono pid h2))
    (fun h2 => Or.inr (hm.failedMono pid h2))

/-- load_feature always settles its feature: it either loads it or marks
it failed. -/
theorem feature_terminal (fuel : Nat) (s : LoaderState) (pid level : Nat)
    (hlt : pid < s.pool.length) :
    Terminal (exec (fuel + 1) (Task.feature pid level) s).1 pid := by
  have hlt1 : pid < (exec fuel
      (Task.deps (poolGet s pid).feats.tail level) s).1.pool.length := by
    rw [(mono_exec fuel (Task.deps (poolGet s pid).feats.tail level)
      s).lenEq]
    exact hlt
  simp only [exec]
  split
  · split
    · left
      show (poolGet (setLoaded _ pid) pid).loaded = true
      rw [setLoaded, poolGet_modify_self hlt1]
    · right
      show (poolGet (setFailed _ pid) pid).failed = true
      rw [setFailed, poolGet_modify_self hlt1]
  · right
    show (poolGet (setFailed _ pid) pid).failed = true
    rw [setFailed, poolGet_modify_self hlt1]

/-- load_provided with enough fuel settles a feature that is not
mid-load. -/
theorem provided_terminal (fuel : Nat) (s : LoaderState) (pid level : Nat)
    (hfuel : 2 ≤ fuel) (hlt : pid < s.pool.length)
    (hnl : (poolGet s pid).loading = false) :
    Terminal (exec fuel (Task.provided pid level) s).1 pid := by
  cases fuel with
  | zero => omega
  | succ f =>
      cases f with
      | zero => omega
      | succ f2 =>
          simp only [exec]
          split
          · rename_i h
            rw [Bool.or_eq_true] at h
            exact h.elim Or.inl Or.inr
          · split
            · rename_i h2
              rw [hnl] at h2
              cases h2
            · have ht := feature_terminal f2 (setLoading s pid true) pid
                (level + 1) (by rw [length_setLoading]; exact hlt)
              rcases ht with h | h
              · left
                rw [poolGet_setLoading_loaded]
                exact h
              · right
                rw [poolGet_setLoading_failed]
                exact h

theorem mono_foldl_provided (fuel : Nat) : ∀ (pids : List Nat)
    (s : LoaderState),
    Mono s (pids.foldl (fun a p => loadProvided fuel a p 0) s) := by
  intro pids
  induction pids with
  | nil => intro s; exact monoRefl s
  | cons p rest ih =>
      intro s
      rw [List.foldl_cons]
      exact monoTrans (mono_exec fuel (Task.provided p 0) s) (ih _)

theorem foldl_provided_terminal (fuel : Nat) (hfuel : 2 ≤ fuel) :
    ∀ (pids : List Nat) (s : LoaderState),
    (∀ q, (poolGet s q).loading = false) →
    ∀ pid ∈ pids, pid < s.pool.length →
    Terminal (pids.foldl (fun a p => loadProvided fuel a p 0) s) pid := by
  intro pids
  induction pids with
  | nil => intro s _ pid hmem _; cases hmem
  | cons p rest ih =>
      intro s hclean pid hmem hlt
      rw [List.foldl_cons]
      have hm1 : Mono s (loadProvided fuel s p 0) :=
        mono_exec fuel (Task.provided p 0) s
      have hclean1 : ∀ q,
          (poolGet (loadProvided fuel s p 0) q).loading = false :=
        fun q => (hm1.loadingEq q).trans (hclean q)
      rcases List.mem_cons.mp hmem with hpe | hpe
      · subst hpe
        have ht : Terminal (loadProvided fuel s pid 0) pid :=
          provided_terminal fuel s pid 0 hfuel hlt (hclean pid)
        exact terminal_of_mono (mono_foldl_provided fuel rest _) ht
      · exact ih _ hclean1 pid hpe (by rw [hm1.lenEq]; exact hlt)

/-- After load_features with enough fuel, every feature referenced by a
plugin entry is settled. -/
theorem loadFeatures_terminal {fuel : Nat} {s : LoaderState}
    (hfuel : 2 ≤ fuel) (hclean : ∀ q, (poolGet s q).loading = false)
    {e : PluginEntry} (he : e ∈ s.plugins) {pid : Nat}
    (hpid : pid ∈ e.features) (hlt : pid < s.pool.length) :
    Terminal (loadFeatures fuel s) pid := by
  rw [loadFeatures]
  refine foldl_provided_terminal fuel hfuel _ s hclean pid ?_ hlt
  rw [List.mem_flatten]
  exact ⟨e.features, List.mem_map_of_mem (fun x => x.features) he, hpid⟩

/-! ### The critical counter bounds the failed critical features -/

/-- Some provided feature of a critical entry has failed. -/
def CritFail (s : LoaderState) : Prop :=
  ∃ pid, (poolGet s pid).failed = true ∧ criticalOf s pid = true

/-- As soon as a critical-owned feature has failed, stats.critical is
positive. -/
def CritInv (s : LoaderState) : Prop := CritFail s → 1 ≤ s.stats.critical

theorem criticalOf_eq_of {s s2 : LoaderState}
    (hpl : s2.plugins = s.plugins)
    (hent : ∀ q, (poolGet s2 q).entry = (poolGet s q).entry) (q : Nat) :
    criticalOf s2 q = criticalOf s q := by
  simp only [criticalOf, entryOf]
  rw [hpl, hent q]

theorem critinv_transport {s s2 : LoaderState}
    (hfa : ∀ q, (poolGet s2 q).failed = (poolGet s q).failed)
    (hcr : ∀ q, criticalOf s2 q = criticalOf s q)
    (hsc : s2.stats.critical = s.stats.critical)
    (h : CritInv s) : CritInv s2 := by
  intro hcf
  obtain ⟨q, hqf, hqc⟩ := hcf
  rw [hfa q] at hqf
  rw [hcr q] at hqc
  rw [hsc]
  exact h ⟨q, hqf, hqc⟩

theorem poolGet_failAcc_ne {s : LoaderState} {pid q : Nat} {b : Bool}
    (hq : q ≠ pid) : poolGet (failAccounting s pid b) q = poolGet s q :=
  @poolGet_modify_ne s pid q (fun p => { p with failed := true }) hq

theorem poolGet_failAcc_entry (s : LoaderState) (pid : Nat) (b : Bool)
    (q : Nat) : (poolGet (failAccounting s pid b) q).entry =
      (poolGet s q).entry :=
  @poolGet_modify_comm Nat s pid (fun p => { p with failed := true })
    (fun p => p.entry) (fun _ => rfl) q

theorem critical_failAccounting (s : LoaderState) (pid : Nat) (b : Bool) :
    (failAccounting s pid b).stats.critical =
      s.stats.critical + (if criticalOf s pid then 1 else 0) := rfl

theorem critinv_setLoaded_push {s : LoaderState} {pid : Nat}
    (h : CritInv s) : CritInv { setLoaded s pid with
      loadedStack := pid :: (setLoaded s pid).loadedStack } := by
  intro hcf
  obtain ⟨q, hqf, hqc⟩ := hcf
  have hfa : (poolGet { setLoaded s pid with
      loadedStack := pid :: (setLoaded s pid).loadedStack } q).failed =
      (poolGet s q).failed :=
    @poolGet_modify_comm Bool s pid (fun p => { p with loaded := true })
      (fun p => p.failed) (fun _ => rfl) q
  have hent : ∀ q2, (poolGet { setLoaded s pid with
      loadedStack := pid :: (setLoaded s pid).loadedStack } q2).entry =
      (poolGet s q2).entry := fun q2 =>
    @poolGet_modify_comm Nat s pid (fun p => { p with loaded := true })
      (fun p => p.entry) (fun _ => rfl) q2
  have hcr := @criticalOf_eq_of s { setLoaded s pid with
      loadedStack := pid :: (setLoaded s pid).loadedStack } rfl hent q
  rw [hfa] at hqf
  rw [hcr] at hqc
  exact h ⟨q, hqf, hqc⟩

theorem critinv_failAccounting {s : LoaderState} {pid : Nat} {b : Bool}
    (h : CritInv s) : CritInv (failAccounting s pid b) := by
  intro hcf
  obtain ⟨q, hqf, hqc⟩ := hcf
  have hcrq : criticalOf (failAccounting s pid b) q = criticalOf s q :=
    @criticalOf_eq_of s (failAccounting s pid b) rfl
      (poolGet_failAcc_entry s pid b) q
  rw [hcrq] at hqc
  rw [critical_failAccounting]
  by_cases hqp : q = pid
  · subst hqp
    rw [if_pos hqc]
    omega
  · rw [poolGet_failAcc_ne hqp] at hqf
    have h1 := h ⟨q, hqf, hqc⟩
    by_cases hcp : criticalOf s pid = true
    · rw [if_pos hcp]; omega
    · rw [if_neg hcp]; omega

/-- The resolver maintains the critical-counter invariant. -/
theorem crit_exec : ∀ (fuel : Nat) (t : Task) (s : LoaderState),
    CritInv s → CritInv (exec fuel t s).1 := by
  intro fuel
  induction fuel with
  | zero => intro t s h; exact h
  | succ fuel ih =>
    intro t s h
    cases t with
    | provided pid level =>
        simp only [exec]
        split
        · exact h
        · split
          · exact h
          · have h1 : CritInv (setLoading s pid true) :=
              critinv_transport (poolGet_setLoading_failed s pid true)
                (@criticalOf_eq_of s (setLoading s pid true) rfl
                  (poolGet_setLoading_entry s pid true))
                rfl h
            have h2 := ih (Task.feature pid (level + 1))
              (setLoading s pid true) h1
            exact critinv_transport
              (poolGet_setLoading_failed _ pid false)
              (@criticalOf_eq_of _ (setLoading _ pid false) rfl
                (poolGet_setLoading_entry _ pid false))
              rfl h2
    | feature pid level =>
        simp only [exec]
        have h1 := ih (Task.deps (poolGet s pid).feats.tail level) s h
        split
        · split
          · exact critinv_setLoaded_push h1
          · exact critinv_failAccounting h1
        · exact critinv_failAccounting h1
    | deps ds level =>
        cases ds with
        | nil => exact h
        | cons d0 rest =>
            simp only [exec]
            split
            · have h1 := ih (Task.dloop (s.pool.length + 1) d0 level) s h
              split
              · exact ih (Task.deps rest level) _ h1
              · split
                · exact ih (Task.deps rest level) _ h1
                · exact h1
            · exact h
    | dloop k d level =>
        cases k with
        | zero => exact h
        | succ k =>
            simp only [exec]
            split
            · rename_i r heq
              exact ih (Task.dloop k d level) _
                (ih (Task.registered r.providers level) s h)
            · exact h
    | registered pids level =>
        cases pids with
        | nil => exact h
        | cons pid rest =>
            simp only [exec]
            exact ih (Task.registered rest level) _
              (ih (Task.provided pid level) s h)

theorem crit_loadFeatures (fuel : Nat) (s : LoaderState) (h : CritInv s) :
    CritInv (loadFeatures fuel s) := by
  rw [loadFeatures]
  generalize (s.plugins.map (fun e => e.features)).flatten = pids
  induction pids generalizing s with
  | nil => exact h
  | cons pid rest ih =>
      rw [List.foldl_cons]
      exact ih _ (crit_exec fuel (Task.provided pid 0) s h)

/-- An entry that supports the features interface and has no loaded
feature (as judged against a fixed pool) is removed by the purge walk. -/
theorem purgeGo_removes : ∀ (l : List PluginEntry) (s s0 : LoaderState),
    s.pool = s0.pool →
    ∀ e ∈ l, (e.hasFeaturesIntf &&
      !(e.features.any (fun pid => (poolGet s0 pid).loaded))) = true →
    e ∉ (purgeGo l s).plugins := by
  intro l
  induction l with
  | nil =>
      intro s s0 hp e he
      cases he
  | cons e1 rest ih =>
      intro s s0 hp e he hcond
      rw [purgeGo]
      have hfun : (fun pid => (poolGet s pid).loaded) =
          (fun pid => (poolGet s0 pid).loaded) :=
        funext (fun pid => by rw [poolGet_pool_eq hp pid])
      rcases List.mem_cons.mp he with hee | hee
      · subst hee
        have hc : (e.hasFeaturesIntf &&
            !(e.features.any (fun pid => (poolGet s pid).loaded))) = true := by
          rw [hfun]
          exact hcond
        rw [if_pos hc]
        intro hmem
        have hmem2 := plugins_purgeGo_subset rest _ e hmem
        rw [plugins_unregisterFeaturesList] at hmem2
        have hne := (List.mem_filter.mp hmem2).2
        simp only [decide_eq_true_eq] at hne
        exact hne rfl
      · by_cases hc1 : (e1.hasFeaturesIntf &&
            !(e1.features.any (fun pid => (poolGet s pid).loaded))) = true
        · rw [if_pos hc1]
          refine ih _ s0 ?_ e hee hcond
          rw [pool_unregisterFeaturesList]
          exact hp
        · rw [if_neg hc1]
          exact ih s s0 hp e hee hcond

/-- A critical plugin whose single feature has an unsatisfiable hard
dependency. -/
def envCriticalDep : Env := fun n =>
  if n == ("a") then
    some ⟨true, [⟨FeatureKind.PROVIDE, 1, some 0⟩,
      ⟨FeatureKind.DEPENDS, 9, some 0⟩], fun _ => true⟩
  else none

/-- C6 (amended): after dependency resolution on a fresh loader, a
critical module entry with at least one provided feature none of which is
loaded causes load to return false; and every entry surviving
purge_plugins that supports the features interface has a loaded feature
(entries without the interface, or critical entries with no provided
features at all, are the exception the counterexample exhibits). -/
theorem critical_unloaded_fails (fuel : Nat) (env : Env)
    (toks : List String) (hfuel : 2 ≤ fuel)
    (hcc : (constructPhase env toks initState).2 = false) (i : Nat)
    (hi : i < (loadFeatures fuel
      (constructPhase env toks initState).1).plugins.length)
    (hcrit : ((loadFeatures fuel
      (constructPhase env toks initState).1).plugins.getD i
        default).critical = true)
    (hne : ((loadFeatures fuel
      (constructPhase env toks initState).1).plugins.getD i
        default).features ≠ [])
    (hnl : ∀ pid ∈ ((loadFeatures fuel
      (constructPhase env toks initState).1).plugins.getD i
        default).features,
      (poolGet (loadFeatures fuel
        (constructPhase env toks initState).1) pid).loaded = false) :
    (loadPlugins fuel env initState toks).2 = false ∧
    (∀ (s : LoaderState) (j : Nat), j < (purgePlugins s).plugins.length →
      ((purgePlugins s).plugins.getD j default).hasFeaturesIntf = true →
      ((purgePlugins s).plugins.getD j default).features.any
        (fun pid => (poolGet (purgePlugins s) pid).loaded) = true) := by
  constructor
  · obtain ⟨hfresh, hpids, hbound, hnd⟩ :=
      constructWF_constructPhase toks env initState constructWF_initState
    have hmE := mono_loadFeatures fuel (constructPhase env toks initState).1
    have hplug : (loadFeatures fuel
        (constructPhase env toks initState).1).plugins =
        (constructPhase env toks initState).1.plugins := hmE.pluginsEq
    set c1 := (constructPhase env toks initState).1 with hc1def
    set s2 := loadFeatures fuel c1 with hs2def
    set e := s2.plugins.getD i default with hedef
    have he2 : e ∈ s2.plugins := by
      rw [hedef, List.getD_eq_getElem s2.plugins default hi]
      exact List.getElem_mem hi
    have he1 : e ∈ c1.plugins := by
      rw [hplug] at he2
      exact he2
    obtain ⟨pid, hpid⟩ : ∃ pid, pid ∈ e.features := by
      cases hfe : e.features with
      | nil => exact absurd hfe hne
      | cons p ps => exact ⟨p, List.mem_cons_self p ps⟩
    obtain ⟨hlt, hent⟩ := hpids e he1 pid hpid
    have hterm : Terminal s2 pid :=
      loadFeatures_terminal hfuel (fun q => (hfresh q).1) he1 hpid hlt
    have hfailed : (poolGet s2 pid).failed = true := by
      rcases hterm with h | h
      · rw [hnl pid hpid] at h
        cases h
      · exact h
    have hcof : criticalOf s2 pid = true := by
      have hent2 : (poolGet s2 pid).entry = e.eid :=
        (hmE.entryEq pid).trans hent
      simp only [criticalOf, entryOf]
      rw [hent2]
      have hsome : (s2.plugins.find?
          (fun e2 => e2.eid == e.eid)).isSome := by
        rw [List.find?_isSome]
        exact ⟨e, he2, by simp⟩
      obtain ⟨e3, he3⟩ := Option.isSome_iff_exists.mp hsome
      have hpe3 := List.find?_some he3
      have hme3 := List.mem_of_find?_eq_some he3
      have hnd2 : (s2.plugins.map (fun x => x.eid)).Nodup := by
        rw [hplug]
        exact hnd
      have hee3 : e3 = e := List.inj_on_of_nodup_map hnd2 hme3 he2
        (by simpa using hpe3)
      rw [he3, hee3]
      exact hcrit
    have hci : CritInv s2 := by
      refine crit_loadFeatures fuel c1 ?_
      intro hcf
      obtain ⟨q, hqf, _⟩ := hcf
      rw [(hfresh q).2.2] at hqf
      cases hqf
    have hpos : 1 ≤ s2.stats.critical := hci ⟨pid, hfailed, hcof⟩
    have hpos2 : 0 < (loadFeatures fuel
        (constructPhase env toks initState).1).stats.critical := by
      rw [← hc1def]
      rw [← hs2def]
      omega
    rw [loadPlugins]
    rw [if_neg (by rw [hcc]; exact Bool.false_ne_true)]
    rw [if_pos (decide_eq_true hpos2)]
  · intro s j hj hint
    set e := (purgePlugins s).plugins.getD j default with hedef
    have hmem : e ∈ (purgePlugins s).plugins := by
      rw [hedef, List.getD_eq_getElem (purgePlugins s).plugins default hj]
      exact List.getElem_mem hj
    have hmem0 : e ∈ s.plugins := plugins_purgeGo_subset s.plugins s e hmem
    have hfun : (fun pid => (poolGet (purgePlugins s) pid).loaded) =
        (fun pid => (poolGet s pid).loaded) :=
      funext (fun pid => by
        show (poolGet (purgeGo s.plugins s) pid).loaded =
          (poolGet s pid).loaded
        rw [poolGet_pool_eq (pool_purgeGo s.plugins s) pid])
    rw [hfun]
    by_cases hany : (e.features.any
        (fun pid => (poolGet s pid).loaded)) = true
    · exact hany
    · have hany2 : (e.features.any
          (fun pid => (poolGet s pid).loaded)) = false := by
        revert hany
        cases e.features.any (fun pid => (poolGet s pid).loaded) <;> simp
      have hcond : (e.hasFeaturesIntf && !(e.features.any
          (fun pid => (poolGet s pid).loaded))) = true := by
        rw [hint, hany2]
        rfl
      exact absurd hmem (purgeGo_removes s.plugins s s rfl e hmem0 hcond)

/-- Witness for the amended C6: the critical plugin with an unmet hard
dependency makes load return false. -/
theorem critical_unloaded_fails_witness :
    (loadPlugins 3 envCriticalDep initState [("a!")]).2 = false :=
  (critical_unloaded_fails 3 envCriticalDep [("a!")] (by decide)
    (by decide) 0 (by decide) (by decide) (by decide) (by decide)).1

/-! ### Registry rows: keys pairwise distinct, providers consistent -/

/-- No two registry rows have `equals` keys. -/
def RowsKeysNodup (rows : List RegisteredFeature) : Prop :=
  rows.Pairwise (fun r1 r2 => featureEquals r1.key r2.key = false)

/-- Every provider of every row has a descriptor `equals` its row key. -/
def RowsWF (dm : Nat → Feature) (rows : List RegisteredFeature) : Prop :=
  ∀ r ∈ rows, ∀ q ∈ r.providers, featureEquals (dm q) r.key = true

theorem findIdx?_start_some {α : Type} [Inhabited α] {p : α → Bool} :
    ∀ (l : List α) (k i : Nat), List.findIdx? p l k = some i →
    k ≤ i ∧ i - k < l.length ∧ p (l.getD (i - k) default) = true := by
  intro l
  induction l with
  | nil => intro k i h; simp [List.findIdx?] at h
  | cons x xs ih =>
      intro k i h
      rw [List.findIdx?_cons] at h
      by_cases hpx : p x = true
      · rw [if_pos hpx] at h
        have hik : i = k := (Option.some_inj.mp h).symm
        subst hik
        refine ⟨Nat.le_refl i, by simp, ?_⟩
        rw [Nat.sub_self]
        rw [List.getD_cons_zero]
        exact hpx
      · rw [if_neg hpx] at h
        obtain ⟨hk1, hlen, hsat⟩ := ih (k + 1) i h
        refine ⟨by omega, by simp; omega, ?_⟩
        have hik : i - k = (i - (k + 1)) + 1 := by omega
        rw [hik, List.getD_cons_succ]
        exact hsat

theorem findIdx?_zero_some {α : Type} [Inhabited α] {p : α → Bool}
    {l : List α} {i : Nat} (h : List.findIdx? p l = some i) :
    i < l.length ∧ p (l.getD i default) = true := by
  obtain ⟨_, hlen, hsat⟩ := findIdx?_start_some l 0 i h
  rw [Nat.sub_zero] at hlen hsat
  exact ⟨hlen, hsat⟩

theorem findIdx?_start_unique {α : Type} [Inhabited α] {p : α → Bool} :
    ∀ (l : List α) (k i : Nat), i < l.length →
    p (l.getD i default) = true →
    (∀ j, j < i → p (l.getD j default) = false) →
    List.findIdx? p l k = some (k + i) := by
  intro l
  induction l with
  | nil => intro k i hi; simp at hi
  | cons x xs ih =>
      intro k i hi hsat hbefore
      rw [List.findIdx?_cons]
      cases i with
      | zero =>
          rw [List.getD_cons_zero] at hsat
          rw [if_pos hsat]
          rfl
      | succ i2 =>
          have hpx : p x = false := by
            have := hbefore 0 (Nat.succ_pos i2)
            rw [List.getD_cons_zero] at this
            exact this
          rw [if_neg (by rw [hpx]; exact Bool.false_ne_true)]
          rw [List.getD_cons_succ] at hsat
          have hres := ih (k + 1) i2 (by simpa using hi) hsat
            (fun j hj => by
              have := hbefore (j + 1) (by omega)
              rw [List.getD_cons_succ] at this
              exact this)
          rw [hres]
          have harith : k + 1 + i2 = k + (i2 + 1) := by omega
          rw [harith]

theorem findIdx?_zero_unique {α : Type} [Inhabited α] {p : α → Bool}
    {l : List α} {i : Nat} (hi : i < l.length)
    (hsat : p (l.getD i default) = true)
    (hbefore : ∀ j, j < i → p (l.getD j default) = false) :
    List.findIdx? p l = some i := by
  have h := findIdx?_start_unique l 0 i hi hsat hbefore
  rwa [Nat.zero_add] at h

/-- Replacing one element by one that relates to the others in the same
way preserves pairwise relations. -/
theorem pairwise_set_congr {α : Type} [Inhabited α] {R : α → α → Prop} :
    ∀ (l : List α) (i : Nat) (a : α), i < l.length → l.Pairwise R →
    (∀ b, R (l.getD i default) b → R a b) →
    (∀ b, R b (l.getD i default) → R b a) →
    (l.set i a).Pairwise R := by
  intro l
  induction l with
  | nil => intro i a hi; simp at hi
  | cons x xs ih =>
      intro i a hi hp hfwd hbwd
      rcases List.pairwise_cons.mp hp with ⟨hx, hxs⟩
      cases i with
      | zero =>
          show (a :: xs).Pairwise R
          refine List.pairwise_cons.mpr ⟨?_, hxs⟩
          intro b hb
          refine hfwd b ?_
          rw [List.getD_cons_zero]
          exact hx b hb
      | succ i2 =>
          show (x :: xs.set i2 a).Pairwise R
          have hi2 : i2 < xs.length := by simpa using hi
          refine List.pairwise_cons.mpr ⟨?_, ?_⟩
          · intro b hb
            rcases List.mem_or_eq_of_mem_set hb with hb2 | hb2
            · exact hx b hb2
            · subst hb2
              refine hbwd x ?_
              rw [List.getD_cons_succ]
              refine hx _ ?_
              rw [List.getD_eq_getElem xs default hi2]
              exact List.getElem_mem hi2
          · refine ih i2 a hi2 hxs ?_ ?_
            · intro b hrb
              refine hfwd b ?_
              rw [List.getD_cons_succ]
              exact hrb
            · intro b hrb
              refine hbwd b ?_
              rw [List.getD_cons_succ]
              exact hrb

theorem rows_getD_mem {rows : List RegisteredFeature} {i : Nat}
    (hi : i < rows.length) : rows.getD i default ∈ rows := by
  rw [List.getD_eq_getElem rows default hi]
  exact List.getElem_mem hi

instance decRowsKeysNodup (rows : List RegisteredFeature) :
    Decidable (RowsKeysNodup rows) := by
  unfold RowsKeysNodup
  infer_instance

instance decRowsWF (dm : Nat → Feature) (rows : List RegisteredFeature) :
    Decidable (RowsWF dm rows) := by
  unfold RowsWF
  infer_instance

/-- Under key uniqueness and provider consistency, the registry lookup of
unregister_feature lands exactly on the row holding the provider. -/
theorem unregStep_target {dm : Nat → Feature}
    {rows : List RegisteredFeature} {pid i : Nat}
    (hnd : RowsKeysNodup rows) (hwf : RowsWF dm rows)
    (hi : i < rows.length)
    (hmem : pid ∈ (rows.getD i default).providers) :
    rows.findIdx? (fun r => featureEquals r.key (dm pid)) = some i := by
  refine findIdx?_zero_unique hi ?_ ?_
  · exact featureEquals_symm (hwf _ (rows_getD_mem hi) pid hmem)
  · intro j hj
    by_cases hjt : featureEquals (rows.getD j default).key (dm pid) = true
    · exfalso
      have hji : featureEquals (rows.getD j default).key
          (rows.getD i default).key = true :=
        featureEquals_trans hjt (hwf _ (rows_getD_mem hi) pid hmem)
      have hpw := List.pairwise_iff_getElem.mp hnd j i
        (Nat.lt_trans hj hi) hi hj
      rw [← List.getD_eq_getElem rows default (Nat.lt_trans hj hi),
        ← List.getD_eq_getElem rows default hi] at hpw
      rw [hpw] at hji
      cases hji
    · simpa using hjt

theorem headD_mem_of_ne_nil {l : List Nat} (h : l ≠ []) :
    l.headD 0 ∈ l := by
  cases l with
  | nil => exact absurd rfl h
  | cons a t => exact List.mem_cons_self a t

/-- C8: removing a provider from the registry removes the whole registered
feature exactly when its provider list becomes empty; otherwise, when the
removed provider owned the key, the key is re-pointed to the descriptor of
the first remaining provider; and key uniqueness is preserved. -/
theorem unregister_feature_spec (s : LoaderState) (pid i : Nat)
    (hnd : RowsKeysNodup s.registry) (hwf : RowsWF (descrOf s) s.registry)
    (hi : i < s.registry.length)
    (hmem : pid ∈ (s.registry.getD i default).providers) :
    ((s.registry.getD i default).providers.filter (fun q => q ≠ pid) = [] →
      (unregisterFeature s pid).registry = s.registry.eraseIdx i) ∧
    ((s.registry.getD i default).providers.filter (fun q => q ≠ pid) ≠ [] →
      (s.registry.getD i default).keyOwner = pid →
      (unregisterFeature s pid).registry = s.registry.set i
        { key := descrOf s (((s.registry.getD i default).providers.filter
            (fun q => q ≠ pid)).headD 0),
          keyOwner := (((s.registry.getD i default).providers.filter
            (fun q => q ≠ pid)).headD 0),
          providers := (s.registry.getD i default).providers.filter
            (fun q => q ≠ pid) }) ∧
    ((s.registry.getD i default).providers.filter (fun q => q ≠ pid) ≠ [] →
      (s.registry.getD i default).keyOwner ≠ pid →
      (unregisterFeature s pid).registry = s.registry.set i
        { s.registry.getD i default with
          providers := (s.registry.getD i default).providers.filter
            (fun q => q ≠ pid) }) ∧
    RowsKeysNodup (unregisterFeature s pid).registry := by
  have hfind := unregStep_target hnd hwf hi hmem
  have hreg : (unregisterFeature s pid).registry =
      unregStep (fun q => descrOf s q) pid s.registry := rfl
  have hstep : unregStep (fun q => descrOf s q) pid s.registry =
      (if ((s.registry.getD i default).providers.filter
          (fun q => q ≠ pid)).isEmpty then s.registry.eraseIdx i
       else if (s.registry.getD i default).keyOwner == pid then
         s.registry.set i
           { key := descrOf s (((s.registry.getD i default).providers.filter
               (fun q => q ≠ pid)).headD 0),
             keyOwner := (((s.registry.getD i default).providers.filter
               (fun q => q ≠ pid)).headD 0),
             providers := (s.registry.getD i default).providers.filter
               (fun q => q ≠ pid) }
       else s.registry.set i
         { s.registry.getD i default with
           providers := (s.registry.getD i default).providers.filter
             (fun q => q ≠ pid) }) := by
    rw [unregStep, hfind]
  have hkeyclass : ∀ h2 : (s.registry.getD i default).providers.filter
      (fun q => q ≠ pid) ≠ [],
      featureEquals (descrOf s (((s.registry.getD i default).providers.filter
        (fun q => q ≠ pid)).headD 0)) (s.registry.getD i default).key =
        true := by
    intro h2
    have hh := headD_mem_of_ne_nil h2
    have hh2 := (List.mem_filter.mp hh).1
    exact hwf _ (rows_getD_mem hi) _ hh2
  refine ⟨?_, ?_, ?_, ?_⟩
  · intro h1
    rw [hreg, hstep, if_pos (by rw [h1]; rfl)]
  · intro h1 h2
    rw [hreg, hstep,
      if_neg (by rw [List.isEmpty_iff]; exact h1),
      if_pos (by rw [h2]; simp)]
  · intro h1 h2
    rw [hreg, hstep,
      if_neg (by rw [List.isEmpty_iff]; exact h1),
      if_neg (by simpa using h2)]
  · rw [hreg, hstep]
    by_cases h1 : ((s.registry.getD i default).providers.filter
        (fun q => q ≠ pid)).isEmpty = true
    · rw [if_pos h1]
      exact hnd.sublist (List.eraseIdx_sublist s.registry i)
    · rw [if_neg h1]
      have h1b : (s.registry.getD i default).providers.filter
          (fun q => q ≠ pid) ≠ [] := by
        intro hx
        rw [List.isEmpty_iff] at h1
        exact h1 hx
      by_cases h2 : ((s.registry.getD i default).keyOwner == pid) = true
      · rw [if_pos h2]
        refine pairwise_set_congr s.registry i _ hi hnd ?_ ?_
        · intro b hb
          by_cases hc : featureEquals (descrOf s
              (((s.registry.getD i default).providers.filter
                (fun q => q ≠ pid)).headD 0)) b.key = true
          · exfalso
            have := featureEquals_trans
              (featureEquals_symm (hkeyclass h1b)) hc
            rw [hb] at this
            cases this
          · simpa using hc
        · intro b hb
          by_cases hc : featureEquals b.key (descrOf s
              (((s.registry.getD i default).providers.filter
                (fun q => q ≠ pid)).headD 0)) = true
          · exfalso
            have := featureEquals_trans hc (hkeyclass h1b)
            rw [hb] at this
            cases this
          · simpa using hc
      · rw [if_neg h2]
        refine pairwise_set_congr s.registry i _ hi hnd ?_ ?_
        · intro b hb
          exact hb
        · intro b hb
          exact hb

/-- A loader with one registered feature provided twice, keyed by the
first provider. -/
def regWitState : LoaderState :=
  { initState with
    pool := [⟨0, none, [⟨FeatureKind.PROVIDE, 1, some 0⟩],
                false, false, false⟩,
             ⟨0, none, [⟨FeatureKind.PROVIDE, 1, some 0⟩],
                false, false, false⟩],
    registry := [⟨⟨FeatureKind.PROVIDE, 1, some 0⟩, 0, [0, 1]⟩] }

theorem findIdx?_start_shift {α : Type} {p : α → Bool} :
    ∀ (l : List α) (k : Nat),
    List.findIdx? p l k = (List.findIdx? p l).map (fun j => j + k) := by
  intro l
  induction l with
  | nil => intro k; rfl
  | cons x xs ih =>
      intro k
      rw [List.findIdx?_cons, List.findIdx?_cons]
      by_cases hp : p x = true
      · rw [if_pos hp, if_pos hp]
        show some k = some (0 + k)
        rw [Nat.zero_add]
      · rw [if_neg hp, if_neg hp]
        rw [ih (k + 1), ih 1, Option.map_map]
        have hfn : ((fun j => j + k) ∘ (fun j => j + 1)) =
            (fun j => j + (k + 1)) := funext (fun j => by
          show j + 1 + k = j + (k + 1)
          omega)
        rw [hfn]

/-- The one-step unfolding of the registry update of unregister_feature on
a nonempty row list. -/
theorem unregStep_cons (dm : Nat → Feature) (pid : Nat)
    (r : RegisteredFeature) (rest : List RegisteredFeature) :
    unregStep dm pid (r :: rest) =
      (if featureEquals r.key (dm pid) = true then
        (if (r.providers.filter (fun q => q ≠ pid)).isEmpty then rest
         else if r.keyOwner == pid then
           { key := dm ((r.providers.filter (fun q => q ≠ pid)).headD 0),
             keyOwner := ((r.providers.filter (fun q => q ≠ pid)).headD 0),
             providers := r.providers.filter (fun q => q ≠ pid) } :: rest
         else { r with providers :=
           r.providers.filter (fun q => q ≠ pid) } :: rest)
      else r :: unregStep dm pid rest) := by
  by_cases hp : featureEquals r.key (dm pid) = true
  · rw [if_pos hp, unregStep, List.findIdx?_cons, if_pos hp]
    show (if ((r :: rest).getD 0 default).providers.filter
        (fun q => q ≠ pid) |>.isEmpty then (r :: rest).eraseIdx 0
      else _) = _
    rw [List.getD_cons_zero]
    rfl
  · rw [if_neg hp, unregStep, unregStep, List.findIdx?_cons, if_neg hp,
      findIdx?_start_shift]
    cases hfr : List.findIdx? (fun r2 => featureEquals r2.key (dm pid))
        rest with
    | none => rfl
    | some j =>
        show (if (((r :: rest).getD (j + 1)
            default).providers.filter (fun q => q ≠ pid)).isEmpty = true then
            (r :: rest).eraseIdx (j + 1) else _) =
          r :: (if ((rest.getD j
            default).providers.filter (fun q => q ≠ pid)).isEmpty = true then
            rest.eraseIdx j else _)
        rw [List.getD_cons_succ]
        by_cases h1 : ((rest.getD j default).providers.filter
            (fun q => q ≠ pid)).isEmpty = true
        · rw [if_pos h1, if_pos h1]
          rfl
        · rw [if_neg h1, if_neg h1]
          by_cases h2 : ((rest.getD j default).keyOwner == pid) = true
          · rw [if_pos h2, if_pos h2]
            show (r :: rest).set (j + 1) _ = r :: rest.set j _
            rw [List.set_cons_succ]
          · rw [if_neg h2, if_neg h2]
            show (r :: rest).set (j + 1) _ = r :: rest.set j _
            rw [List.set_cons_succ]

/-- After unregistering a provider, no row of a consistent registry with
pairwise distinct keys still references it. -/
theorem unregStep_no_pid {dm : Nat → Feature} {pid : Nat} :
    ∀ (rows : List RegisteredFeature), RowsKeysNodup rows →
    RowsWF dm rows →
    ∀ r2 ∈ unregStep dm pid rows, pid ∉ r2.providers := by
  intro rows
  induction rows with
  | nil => intro _ _ r2 hr2; cases hr2
  | cons r rest ih =>
      intro hnd hwf r2 hr2 hpidmem
      rcases List.pairwise_cons.mp hnd with ⟨hr, hrest⟩
      have hwfrest : RowsWF dm rest :=
        fun r3 hr3 => hwf r3 (List.mem_cons_of_mem r hr3)
      rw [unregStep_cons] at hr2
      by_cases hp : featureEquals r.key (dm pid) = true
      · rw [if_pos hp] at hr2
        have hother : r2 ∈ rest → False := by
          intro hmem
          have hkey : featureEquals (dm pid) r2.key = true :=
            hwf r2 (List.mem_cons_of_mem r hmem) pid hpidmem
          have : featureEquals r.key r2.key = true :=
            featureEquals_trans hp hkey
          rw [hr r2 hmem] at this
          cases this
        by_cases h1 : ((r.providers.filter (fun q => q ≠ pid)).isEmpty) =
            true
        · rw [if_pos h1] at hr2
          exact hother hr2
        · rw [if_neg h1] at hr2
          by_cases h2 : (r.keyOwner == pid) = true
          · rw [if_pos h2] at hr2
            rcases List.mem_cons.mp hr2 with he | he
            · subst he
              have := (List.mem_filter.mp hpidmem).2
              simp at this
            · exact hother he
          · rw [if_neg h2] at hr2
            rcases List.mem_cons.mp hr2 with he | he
            · subst he
              have := (List.mem_filter.mp hpidmem).2
              simp at this
            · exact hother he
      · rw [if_neg hp] at hr2
        rcases List.mem_cons.mp hr2 with he | he
        · subst he
          have hkey : featureEquals (dm pid) r2.key = true :=
            hwf r2 (List.mem_cons_self r2 rest) pid hpidmem
          exact hp (featureEquals_symm hkey)
        · exact ih hrest hwfrest r2 he hpidmem

/-- Providers surviving the registry update come from existing rows. -/
theorem unregStep_providers_sub {dm : Nat → Feature} {pid : Nat} :
    ∀ (rows : List RegisteredFeature),
    ∀ r2 ∈ unregStep dm pid rows, ∀ q ∈ r2.providers,
      ∃ r ∈ rows, q ∈ r.providers := by
  intro rows
  induction rows with
  | nil => intro r2 hr2; cases hr2
  | cons r rest ih =>
      intro r2 hr2 q hq
      rw [unregStep_cons] at hr2
      by_cases hp : featureEquals r.key (dm pid) = true
      · rw [if_pos hp] at hr2
        by_cases h1 : ((r.providers.filter (fun q2 => q2 ≠ pid)).isEmpty) =
            true
        · rw [if_pos h1] at hr2
          exact ⟨r2, List.mem_cons_of_mem r hr2, hq⟩
        · rw [if_neg h1] at hr2
          by_cases h2 : (r.keyOwner == pid) = true
          · rw [if_pos h2] at hr2
            rcases List.mem_cons.mp hr2 with he | he
            · subst he
              exact ⟨r, List.mem_cons_self r rest,
                (List.mem_filter.mp hq).1⟩
            · exact ⟨r2, List.mem_cons_of_mem r he, hq⟩
          · rw [if_neg h2] at hr2
            rcases List.mem_cons.mp hr2 with he | he
            · subst he
              exact ⟨r, List.mem_cons_self r rest,
                (List.mem_filter.mp hq).1⟩
            · exact ⟨r2, List.mem_cons_of_mem r he, hq⟩
      · rw [if_neg hp] at hr2
        rcases List.mem_cons.mp hr2 with he | he
        · subst he
          exact ⟨r2, List.mem_cons_self r2 rest, hq⟩
        · obtain ⟨r3, hr3, hq3⟩ := ih r2 he q hq
          exact ⟨r3, List.mem_cons_of_mem r hr3, hq3⟩

/-- Every key after the registry update is `equals` to a key of an
existing row. -/
theorem unregStep_keys {dm : Nat → Feature} {pid : Nat} :
    ∀ (rows : List RegisteredFeature), RowsWF dm rows →
    ∀ r2 ∈ unregStep dm pid rows, ∃ r ∈ rows,
      featureEquals r2.key r.key = true := by
  intro rows
  induction rows with
  | nil => intro _ r2 hr2; cases hr2
  | cons r rest ih =>
      intro hwf r2 hr2
      have hwfrest : RowsWF dm rest :=
        fun r3 hr3 => hwf r3 (List.mem_cons_of_mem r hr3)
      rw [unregStep_cons] at hr2
      by_cases hp : featureEquals r.key (dm pid) = true
      · rw [if_pos hp] at hr2
        by_cases h1 : ((r.providers.filter (fun q2 => q2 ≠ pid)).isEmpty) =
            true
        · rw [if_pos h1] at hr2
          exact ⟨r2, List.mem_cons_of_mem r hr2, featureEquals_refl _⟩
        · rw [if_neg h1] at hr2
          have h1b : r.providers.filter (fun q2 => q2 ≠ pid) ≠ [] := by
            intro hx
            rw [List.isEmpty_iff] at h1
            exact h1 hx
          have hh := headD_mem_of_ne_nil h1b
          have hhp := (List.mem_filter.mp hh).1
          have hkeyh : featureEquals
              (dm ((r.providers.filter (fun q2 => q2 ≠ pid)).headD 0))
              r.key = true :=
            hwf r (List.mem_cons_self r rest) _ hhp
          by_cases h2 : (r.keyOwner == pid) = true
          · rw [if_pos h2] at hr2
            rcases List.mem_cons.mp hr2 with he | he
            · subst he
              exact ⟨r, List.mem_cons_self r rest, hkeyh⟩
            · exact ⟨r2, List.mem_cons_of_mem r he, featureEquals_refl _⟩
          · rw [if_neg h2] at hr2
            rcases List.mem_cons.mp hr2 with he | he
            · subst he
              exact ⟨r, List.mem_cons_self r rest, featureEquals_refl _⟩
            · exact ⟨r2, List.mem_cons_of_mem r he, featureEquals_refl _⟩
      · rw [if_neg hp] at hr2
        rcases List.mem_cons.mp hr2 with he | he
        · subst he
          exact ⟨r2, List.mem_cons_self r2 rest, featureEquals_refl _⟩
        · obtain ⟨r3, hr3, hk3⟩ := ih hwfrest r2 he
          exact ⟨r3, List.mem_cons_of_mem r hr3, hk3⟩

/-- The registry update preserves key uniqueness, provider consistency and
row non-emptiness. -/
theorem unregStep_preserves {dm : Nat → Feature} {pid : Nat} :
    ∀ (rows : List RegisteredFeature), RowsKeysNodup rows →
    RowsWF dm rows → (∀ r ∈ rows, r.providers ≠ []) →
    RowsKeysNodup (unregStep dm pid rows) ∧
    RowsWF dm (unregStep dm pid rows) ∧
    (∀ r ∈ unregStep dm pid rows, r.providers ≠ []) := by
  intro rows
  induction rows with
  | nil =>
      intro _ _ _
      rw [unregStep]
      exact ⟨List.Pairwise.nil, fun r hr => absurd hr (List.not_mem_nil r),
        fun r hr => absurd hr (List.not_mem_nil r)⟩
  | cons r rest ih =>
      intro hnd hwf hne
      rcases List.pairwise_cons.mp hnd with ⟨hr, hrest⟩
      have hwfrest : RowsWF dm rest :=
        fun r3 hr3 => hwf r3 (List.mem_cons_of_mem r hr3)
      have hnerest : ∀ r3 ∈ rest, r3.providers ≠ [] :=
        fun r3 hr3 => hne r3 (List.mem_cons_of_mem r hr3)
      rw [unregStep_cons]
      by_cases hp : featureEquals r.key (dm pid) = true
      · rw [if_pos hp]
        by_cases h1 : ((r.providers.filter (fun q2 => q2 ≠ pid)).isEmpty) =
            true
        · rw [if_pos h1]
          exact ⟨hrest, hwfrest, hnerest⟩
        · rw [if_neg h1]
          have h1b : r.providers.filter (fun q2 => q2 ≠ pid) ≠ [] := by
            intro hx
            rw [List.isEmpty_iff] at h1
            exact h1 hx
          have hh := headD_mem_of_ne_nil h1b
          have hhp := (List.mem_filter.mp hh).1
          have hkeyh : featureEquals
              (dm ((r.providers.filter (fun q2 => q2 ≠ pid)).headD 0))
              r.key = true :=
            hwf r (List.mem_cons_self r rest) _ hhp
          by_cases h2 : (r.keyOwner == pid) = true
          · rw [if_pos h2]
            refine ⟨?_, ?_, ?_⟩
            · refine List.pairwise_cons.mpr ⟨?_, hrest⟩
              intro b hb
              by_cases hc : featureEquals
                  (dm ((r.providers.filter (fun q2 => q2 ≠ pid)).headD 0))
                  b.key = true
              · exfalso
                have := featureEquals_trans
                  (featureEquals_symm hkeyh) hc
                rw [hr b hb] at this
                cases this
              · simpa using hc
            · intro r3 hr3 q hq
              rcases List.mem_cons.mp hr3 with he | he
              · subst he
                have hqp := (List.mem_filter.mp hq).1
                have := hwf r (List.mem_cons_self r rest) q hqp
                exact featureEquals_trans this (featureEquals_symm hkeyh)
              · exact hwfrest r3 he q hq
            · intro r3 hr3
              rcases List.mem_cons.mp hr3 with he | he
              · subst he
                exact h1b
              · exact hnerest r3 he
          · rw [if_neg h2]
            refine ⟨?_, ?_, ?_⟩
            · refine List.pairwise_cons.mpr ⟨?_, hrest⟩
              intro b hb
              exact hr b hb
            · intro r3 hr3 q hq
              rcases List.mem_cons.mp hr3 with he | he
              · subst he
                have hqp := (List.mem_filter.mp hq).1
                exact hwf r (List.mem_cons_self r rest) q hqp
              · exact hwfrest r3 he q hq
            · intro r3 hr3
              rcases List.mem_cons.mp hr3 with he | he
              · subst he
                exact h1b
              · exact hnerest r3 he
      · rw [if_neg hp]
        obtain ⟨ihnd, ihwf, ihne⟩ := ih hrest hwfrest hnerest
        refine ⟨?_, ?_, ?_⟩
        · refine List.pairwise_cons.mpr ⟨?_, ihnd⟩
          intro b hb
          obtain ⟨r3, hr3, hk3⟩ := unregStep_keys rest hwfrest b hb
          by_cases hc : featureEquals r.key b.key = true
          · exfalso
            have := featureEquals_trans hc hk3
            rw [hr r3 hr3] at this
            cases this
          · simpa using hc
        · intro r3 hr3 q hq
          rcases List.mem_cons.mp hr3 with he | he
          · subst he
            exact hwf r3 (List.mem_cons_self r3 rest) q hq
          · exact ihwf r3 he q hq
        · intro r3 hr3
          rcases List.mem_cons.mp hr3 with he | he
          · subst he
            exact hne r3 (List.mem_cons_self r3 rest)
          · exact ihne r3 he

/-- Witness for C8: unregistering the key-owning provider re-points the
key of the row to the first remaining provider. -/
theorem unregister_feature_spec_witness :
    (unregisterFeature regWitState 0).registry = regWitState.registry.set 0
      { key := descrOf regWitState
          (((regWitState.registry.getD 0 default).providers.filter
            (fun q => q ≠ 0)).headD 0),
        keyOwner := (((regWitState.registry.getD 0 default).providers.filter
          (fun q => q ≠ 0)).headD 0),
        providers := (regWitState.registry.getD 0 default).providers.filter
          (fun q => q ≠ 0) } :=
  (unregister_feature_spec regWitState 0 0 (by decide)
    (by decide) (by decide) (by decide)).2.1 (by decide) (by decide)

/-! ### The unload teardown (C7) -/

/-- A call list covering every registered provider empties a consistent
registry when the unregister_feature update is folded over it. -/
theorem unregFold_empty {dm : Nat → Feature} :
    ∀ (calls : List Nat) (rows : List RegisteredFeature),
    RowsKeysNodup rows → RowsWF dm rows →
    (∀ r ∈ rows, r.providers ≠ []) →
    (∀ r ∈ rows, ∀ q ∈ r.providers, q ∈ calls) →
    calls.foldl (fun rs pid => unregStep dm pid rs) rows = [] := by
  intro calls
  induction calls with
  | nil =>
      intro rows hnd hwf hne hcov
      cases rows with
      | nil => rfl
      | cons r rest =>
          exfalso
          have hne1 := hne r (List.mem_cons_self r rest)
          have hh := headD_mem_of_ne_nil hne1
          exact (List.not_mem_nil _)
            (hcov r (List.mem_cons_self r rest) _ hh)
  | cons pid cs ih =>
      intro rows hnd hwf hne hcov
      rw [List.foldl_cons]
      obtain ⟨hnd2, hwf2, hne2⟩ := unregStep_preserves rows hnd hwf hne
      refine ih (unregStep dm pid rows) hnd2 hwf2 hne2 ?_
      intro r2 hr2 q hq
      have hqpid : q ≠ pid := by
        intro hqe
        subst hqe
        exact unregStep_no_pid rows hnd hwf r2 hr2 hq
      obtain ⟨r, hr, hq2⟩ := unregStep_providers_sub rows r2 hr2 q hq
      rcases List.mem_cons.mp (hcov r hr q hq2) with he | he
      · exact absurd he hqpid
      · exact he

/-- States with the same pool assign the same descriptor map. -/
theorem descrMap_congr {s1 s2 : LoaderState} (h : s1.pool = s2.pool) :
    (fun q => descrOf s1 q) = (fun q => descrOf s2 q) :=
  funext (fun q => by rw [descrOf, descrOf, poolGet, poolGet, h])

theorem pool_unloadGo : ∀ (l : List Nat) (s : LoaderState),
    (unloadGo l s).pool = s.pool := by
  intro l
  induction l with
  | nil => intro s; rfl
  | cons pid rest ih =>
      intro s
      exact ih (unregisterFeature (entryRemoveFeature
        { s with loadedStack := rest } (poolGet s pid).entry pid) pid)

theorem stack_unloadGo : ∀ (l : List Nat) (s : LoaderState),
    s.loadedStack = l → (unloadGo l s).loadedStack = [] := by
  intro l
  induction l with
  | nil => intro s h; exact h
  | cons pid rest ih =>
      intro s h
      exact ih (unregisterFeature (entryRemoveFeature
        { s with loadedStack := rest } (poolGet s pid).entry pid) pid) rfl

/-- unload_features drains the whole activation stack. -/
theorem stack_unloadFeatures (s : LoaderState) :
    (unloadFeatures s).loadedStack = [] :=
  stack_unloadGo s.loadedStack s rfl

/-- The registry after unload_features is the unregister fold over the
activation stack (the pool never changes, so the descriptor map is the
initial one). -/
theorem registry_unloadGo : ∀ (l : List Nat) (s : LoaderState),
    (unloadGo l s).registry =
      l.foldl (fun rows pid => unregStep (fun q => descrOf s q) pid rows)
        s.registry := by
  intro l
  induction l with
  | nil => intro s; rfl
  | cons pid rest ih =>
      intro s
      rw [List.foldl_cons]
      exact ih (unregisterFeature (entryRemoveFeature
        { s with loadedStack := rest } (poolGet s pid).entry pid) pid)

/-- A provided feature not on the activation stack survives the stack
teardown inside its owning entry. -/
theorem unloadGo_keeps_feature : ∀ (l : List Nat) (s : LoaderState)
    (q : Nat), q ∉ l → (∃ e ∈ s.plugins, q ∈ e.features) →
    ∃ e2 ∈ (unloadGo l s).plugins, q ∈ e2.features := by
  intro l
  induction l with
  | nil => intro s q _ hex; exact hex
  | cons pid rest ih =>
      intro s q h hex
      obtain ⟨e, he, hq⟩ := hex
      have hqpid : q ≠ pid := fun hqe => h (hqe ▸ List.mem_cons_self pid rest)
      have hqrest : q ∉ rest := fun hm => h (List.mem_cons_of_mem pid hm)
      refine ih (unregisterFeature (entryRemoveFeature
        { s with loadedStack := rest } (poolGet s pid).entry pid) pid) q hqrest ?_
      refine ⟨(fun e2 => if e2.eid == (poolGet s pid).entry then
        { e2 with features := e2.features.filter (fun x => x ≠ pid) }
        else e2) e, ?_, ?_⟩
      · exact List.mem_map_of_mem _ he
      · show q ∈ (if (e.eid == (poolGet s pid).entry) = true then
          ({ e with features := e.features.filter (fun x => x ≠ pid) } :
            PluginEntry) else e).features
        by_cases hcase : (e.eid == (poolGet s pid).entry) = true
        · rw [if_pos hcase]
          show q ∈ e.features.filter (fun x => x ≠ pid)
          exact List.mem_filter.mpr ⟨hq, by simpa using hqpid⟩
        · rw [if_neg hcase]
          exact hq

theorem registry_unregisterFeaturesList : ∀ (fids : List Nat)
    (s : LoaderState), (unregisterFeaturesList s fids).registry =
      fids.foldl (fun rows pid => unregStep (fun q => descrOf s q) pid rows)
        s.registry := by
  intro fids
  induction fids with
  | nil => intro s; rfl
  | cons pid rest ih =>
      intro s
      rw [unregisterFeaturesList, List.foldl_cons, List.foldl_cons]
      exact ih (unregisterFeature s pid)

theorem plugins_unregFoldEntries : ∀ (es : List PluginEntry)
    (a : LoaderState),
    (es.foldl (fun a e => unregisterFeaturesList a e.features) a).plugins =
      a.plugins := by
  intro es
  induction es with
  | nil => intro a; rfl
  | cons e rest ih =>
      intro a
      rw [List.foldl_cons, ih, plugins_unregisterFeaturesList]

theorem stack_unregisterFeaturesList : ∀ (fids : List Nat)
    (s : LoaderState),
    (unregisterFeaturesList s fids).loadedStack = s.loadedStack := by
  intro fids
  induction fids with
  | nil => intro s; rfl
  | cons pid rest ih =>
      intro s
      rw [unregisterFeaturesList, List.foldl_cons]
      exact ih (unregisterFeature s pid)

theorem stack_unregFoldEntries : ∀ (es : List PluginEntry)
    (a : LoaderState),
    (es.foldl (fun a e =>
      unregisterFeaturesList a e.features) a).loadedStack =
      a.loadedStack := by
  intro es
  induction es with
  | nil => intro a; rfl
  | cons e rest ih =>
      intro a
      rw [List.foldl_cons, ih, stack_unregisterFeaturesList]

/-- The registry after the plugin teardown loop is the unregister fold over
the concatenated feature lists of the entries, walked back to front. -/
theorem registry_unregFoldEntries : ∀ (es : List PluginEntry)
    (a : LoaderState),
    (es.foldl (fun a e => unregisterFeaturesList a e.features) a).registry =
      ((es.map (fun e => e.features)).flatten).foldl
        (fun rows pid => unregStep (fun q => descrOf a q) pid rows)
        a.registry := by
  intro es
  induction es with
  | nil => intro a; rfl
  | cons e rest ih =>
      intro a
      rw [List.foldl_cons, ih (unregisterFeaturesList a e.features),
        registry_unregisterFeaturesList e.features a]
      have hdm : (fun q => descrOf (unregisterFeaturesList a e.features) q) =
          (fun q => descrOf a q) :=
        descrMap_congr (pool_unregisterFeaturesList e.features a)
      rw [hdm, List.map_cons, List.flatten_cons, List.foldl_append]

theorem plugins_unloadAllPlugins (s : LoaderState) :
    (unloadAllPlugins s).plugins = [] := by
  show ((s.plugins.reverse).foldl (fun a e =>
    unregisterFeaturesList a e.features) { s with plugins := [] }).plugins = []
  rw [plugins_unregFoldEntries]

theorem stack_unloadAllPlugins (s : LoaderState) :
    (unloadAllPlugins s).loadedStack = s.loadedStack := by
  show ((s.plugins.reverse).foldl (fun a e =>
    unregisterFeaturesList a e.features)
      { s with plugins := [] }).loadedStack = s.loadedStack
  rw [stack_unregFoldEntries]

theorem registry_unloadAllPlugins (s : LoaderState) :
    (unloadAllPlugins s).registry =
      ((s.plugins.reverse.map (fun e => e.features)).flatten).foldl
        (fun rows pid => unregStep (fun q => descrOf s q) pid rows)
        s.registry := by
  show ((s.plugins.reverse).foldl (fun a e =>
    unregisterFeaturesList a e.features) { s with plugins := [] }).registry =
    _
  rw [registry_unregFoldEntries]
  rfl

/-- The teardown preconditions unload relies on: a registry with pairwise
distinct keys, rows keyed consistently with their providers, no empty
rows, and every provider either on the activation stack or still held by
a module entry. -/
def UnloadWF (s : LoaderState) : Prop :=
  RowsKeysNodup s.registry ∧
  RowsWF (fun q => descrOf s q) s.registry ∧
  (∀ r ∈ s.registry, r.providers ≠ []) ∧
  (∀ r ∈ s.registry, ∀ q ∈ r.providers,
    q ∈ s.loadedStack ∨ ∃ e ∈ s.plugins, q ∈ e.features)

instance decUnloadWF (s : LoaderState) : Decidable (UnloadWF s) := by
  unfold UnloadWF
  infer_instance

/-- C7: after unload() returns, the module-entry list is empty, the
activation stack is empty, the feature registry is empty, all three stats
counters are zero, and loaded_plugins() returns the empty string — from
any state whose registry satisfies the teardown preconditions (pairwise
distinct keys, consistent row keys, no empty rows, every provider on the
activation stack or held by a module entry). -/
theorem unload_clears_state (s : LoaderState) (h : UnloadWF s) :
    (unload s).plugins = [] ∧ (unload s).loadedStack = [] ∧
    (unload s).registry = [] ∧ (unload s).stats = ⟨0, 0, 0⟩ ∧
    loadedPluginsStr (unload s) = ("") := by
  obtain ⟨hnd, hwf, hne, hcov⟩ := h
  refine ⟨?_, ?_, ?_, rfl, rfl⟩
  · show (unloadAllPlugins (unloadFeatures s)).plugins = []
    exact plugins_unloadAllPlugins _
  · show (unloadAllPlugins (unloadFeatures s)).loadedStack = []
    rw [stack_unloadAllPlugins, stack_unloadFeatures]
  · show (unloadAllPlugins (unloadFeatures s)).registry = []
    rw [registry_unloadAllPlugins]
    have hpool1 : (unloadFeatures s).pool = s.pool :=
      pool_unloadGo s.loadedStack s
    have hdm : (fun q => descrOf (unloadFeatures s) q) =
        (fun q => descrOf s q) := descrMap_congr hpool1
    rw [hdm]
    have hreg1 : (unloadFeatures s).registry =
        s.loadedStack.foldl
          (fun rows pid => unregStep (fun q => descrOf s q) pid rows)
          s.registry :=
      registry_unloadGo s.loadedStack s
    rw [hreg1, ← List.foldl_append]
    refine unregFold_empty _ s.registry hnd hwf hne ?_
    intro r hr q hq
    rcases hcov r hr q hq with hs | ⟨e, he, hqe⟩
    · exact List.mem_append_left _ hs
    · by_cases hqs : q ∈ s.loadedStack
      · exact List.mem_append_left _ hqs
      · refine List.mem_append_right _ ?_
        obtain ⟨e2, he2, hq2⟩ :=
          unloadGo_keeps_feature s.loadedStack s q hqs ⟨e, he, hqe⟩
        exact List.mem_flatten.mpr ⟨e2.features,
          List.mem_map_of_mem _ (List.mem_reverse.mpr he2), hq2⟩

def envUnloadW : Env := fun n =>
  if n == ("u") then
    some ⟨true, [⟨FeatureKind.PROVIDE, 1, some 0⟩], fun _ => true⟩
  else none

/-- The loader state after successfully loading the single plugin list
used to witness the teardown theorem. -/
def unloadWitState : LoaderState := (load 10 envUnloadW initState ("u")).1

/-- Witness for C7: a concrete loaded state satisfies the teardown
preconditions and unload empties its registry. -/
theorem unload_clears_state_witness :
    UnloadWF unloadWitState ∧ (unload unloadWitState).registry = [] :=
  ⟨by decide, (unload_clears_state unloadWitState (by decide)).2.2.1⟩

end PluginLoader
